import Mathlib

/-!
Verification of the tool-call extraction, validation, and approval pipeline
of the `m-to-the-cp` repository (an MCP chat client): a shallow embedding of
the relevant TypeScript functions together with theorems settling the
specification's claims about them.

Embedded source locations:
  * `mcp-client-ui/src/utils/mcpService.ts`  — identifier normalization,
    tool-call extraction from model output, content sanitization.
  * `mcp-client-typescript/utils/schema.ts`  — JSON-Schema → zod compilation.
  * `mcp-client-typescript/index.ts`         — connection registry
    (`connectToServer` / `disconnectFromServer` / `getTools`) and
    `processQueryStructured`.
  * `mcp-client-typescript/server.ts`        — the pending-approval table,
    the 30-second approval timeout, and the `/api/approve-tool` endpoint.

Strings are modelled as Lean `String` / `List Char`; this is faithful for the
ASCII texts the program manipulates.  JavaScript `Map` objects are modelled as
association lists with JS insertion-order semantics.  JS promises are modelled
by `Option Bool` cells with first-resolution-wins updates.
-/

namespace MtoMCP

/-! ## JavaScript string primitives -/

/-- The apostrophe character (written numerically). -/
def apos : Char := Char.ofNat 39

/-- JS `\w` character class: `[A-Za-z0-9_]`. -/
def isWordChar (c : Char) : Bool :=
  (('a' ≤ c && c ≤ 'z') || ('A' ≤ c && c ≤ 'Z') || ('0' ≤ c && c ≤ '9') || c = '_')

/-- JS `\s` character class, restricted to its ASCII members
(space, tab, newline, carriage return, vertical tab, form feed). -/
def isJsSpace (c : Char) : Bool :=
  (c = ' ' || c = '\t' || c = '\n' || c = '\r' || c = Char.ofNat 11 || c = Char.ofNat 12)

/-- JS `[a-zA-Z]`. -/
def isAsciiAlpha (c : Char) : Bool :=
  (('a' ≤ c && c ≤ 'z') || ('A' ≤ c && c ≤ 'Z'))

/-- JS `\d`. -/
def isAsciiDigit (c : Char) : Bool := ('0' ≤ c && c ≤ '9')

/-- JS `String.prototype.toLowerCase` on the ASCII range: lower-case each
character (`Char.toLower` is exactly ASCII lower-casing). -/
def jsToLowerCase (l : List Char) : List Char := l.map Char.toLower

/-- JS `String.prototype.trim`: drop leading and trailing `\s` characters. -/
def jsTrim (l : List Char) : List Char :=
  ((l.dropWhile isJsSpace).reverse.dropWhile isJsSpace).reverse

/-! ## Identifier normalization (`mcp-client-ui/src/utils/mcpService.ts`, lines 7-9)

The source is `id.replace(RE_TAG, '').toLowerCase()` where `RE_TAG` is the
anchored, non-global, case-sensitive regex `^(mcp-)?server-` (written here
without its surrounding slashes).  The `replace` removes a leading
`"mcp-server-"` (the optional group is tried greedily first) or else a
leading `"server-"`, if present. -/

/-- Strip one leading `"mcp-server-"` or `"server-"` from a character list,
exactly as replacing anchored `(mcp-)?server-` with the empty string does. -/
def stripServerTag (s : List Char) : List Char :=
  if "mcp-server-".data.isPrefixOf s then s.drop 11
  else if "server-".data.isPrefixOf s then s.drop 7
  else s

/-- `normalizeServerId` from `mcpService.ts`: strip the prefix, then
lower-case. -/
def normalizeServerId (s : String) : String :=
  ⟨jsToLowerCase (stripServerTag s.data)⟩

/-- The id normalization used inside `MCPClient.connectToServer`
(`index.ts`, line 73): prefix stripping without lower-casing. -/
def normalizeConnectId (s : String) : String := ⟨stripServerTag s.data⟩

/-! ## JavaScript `Map` (association list with JS insertion-order semantics) -/

/-- A JS `Map` with string keys: an association list in insertion order. -/
abbrev JsMap (α : Type) : Type := List (String × α)

/-- The empty map (`new Map()`). -/
def JsMap.empty {α : Type} : JsMap α := []

/-- `map.get(k)`: value at the first (unique) occurrence of `k`. -/
def JsMap.get? {α : Type} (m : JsMap α) (k : String) : Option α :=
  (List.find? (fun p => p.1 == k) m).map (·.2)

/-- `map.get(k) || d`: lookup with a default (JS falsy coalescing on a map of
non-falsy values). -/
def JsMap.getD {α : Type} (m : JsMap α) (k : String) (d : α) : α :=
  (m.get? k).getD d

/-- `map.set(k, v)`: replace the value at an existing key in place, else
append the new binding. -/
def JsMap.set {α : Type} : JsMap α → String → α → JsMap α
  | [], k, v => [(k, v)]
  | (k', v') :: rest, k, v =>
    if k' = k then (k', v) :: rest else (k', v') :: JsMap.set rest k v

/-- `map.delete(k)`: remove the binding of `k`, if present. -/
def JsMap.del {α : Type} : JsMap α → String → JsMap α
  | [], _ => []
  | (k', v') :: rest, k =>
    if k' = k then rest else (k', v') :: JsMap.del rest k

/-- `map.has(k)` (also what truthiness of `map.get(k)` reduces to for maps of
non-falsy values). -/
def JsMap.hasKey {α : Type} (m : JsMap α) (k : String) : Bool :=
  (m.get? k).isSome

/-- Keys are pairwise distinct — the invariant every JS `Map` maintains. -/
abbrev JsMap.WF {α : Type} (m : JsMap α) : Prop :=
  (m.map Prod.fst).Nodup

/-! ## JSON values and `JSON.parse`

`JsVal` is the value space of `JSON.parse`.  Numbers are kept exact as
`mant × 10 ^ exp10`; the texts handled by the claims only contain small
integers, where this coincides with JS number semantics. -/

inductive JsVal where
  | null
  | bool (b : Bool)
  | num (mant : Int) (exp10 : Int)
  | str (s : String)
  | arr (elems : List JsVal)
  | obj (fields : List (String × JsVal))

/-- An integer JSON number. -/
def JsVal.int (n : Int) : JsVal := .num n 0

/-- Property access `v.k` on a parsed JSON value: a field of an object,
`undefined` (here `none`) otherwise. -/
def JsVal.getField : JsVal → String → Option JsVal
  | .obj fs, k => (List.find? (fun p => p.1 == k) fs).map (·.2)
  | _, _ => none

/-- The double-quote character (written numerically). -/
def dquote : Char := Char.ofNat 34

/-- The backslash character (written numerically). -/
def bslash : Char := Char.ofNat 92

/-- The left and right curly brace characters (written numerically). -/
def lbrace : Char := Char.ofNat 123

/-- Right curly brace. -/
def rbrace : Char := Char.ofNat 125

/-- JSON whitespace (`JSON.parse` skips exactly these). -/
def isJsonWs (c : Char) : Bool :=
  (c = ' ' || c = '\t' || c = '\n' || c = '\r')

/-- Skip JSON whitespace. -/
def skipWs (s : List Char) : List Char := s.dropWhile isJsonWs

/-- Hex digit value, if any. -/
def hexVal (c : Char) : Option Nat :=
  if '0' ≤ c && c ≤ '9' then some (c.toNat - 48)
  else if 'a' ≤ c && c ≤ 'f' then some (c.toNat - 87)
  else if 'A' ≤ c && c ≤ 'F' then some (c.toNat - 55)
  else none

/-- Parse the body of a JSON string (after the opening quote), handling the
escape sequences `JSON.parse` accepts and rejecting raw control characters. -/
def pStrChars : Nat → List Char → List Char → Option (String × List Char)
  | 0, _, _ => none
  | f + 1, acc, s =>
    match s with
    | [] => none
    | c :: rest =>
      if c = dquote then some (⟨acc.reverse⟩, rest)
      else if c = bslash then
        match rest with
        | [] => none
        | e :: rest2 =>
          if e = dquote then pStrChars f (dquote :: acc) rest2
          else if e = bslash then pStrChars f (bslash :: acc) rest2
          else if e = '/' then pStrChars f ('/' :: acc) rest2
          else if e = 'b' then pStrChars f (Char.ofNat 8 :: acc) rest2
          else if e = 'f' then pStrChars f (Char.ofNat 12 :: acc) rest2
          else if e = 'n' then pStrChars f ('\n' :: acc) rest2
          else if e = 'r' then pStrChars f ('\r' :: acc) rest2
          else if e = 't' then pStrChars f ('\t' :: acc) rest2
          else if e = 'u' then
            match rest2 with
            | h1 :: h2 :: h3 :: h4 :: rest3 =>
              match hexVal h1, hexVal h2, hexVal h3, hexVal h4 with
              | some a, some b, some c2, some d =>
                pStrChars f (Char.ofNat (((a * 16 + b) * 16 + c2) * 16 + d) :: acc) rest3
              | _, _, _, _ => none
            | _ => none
          else none
      else if c.toNat < 32 then none
      else pStrChars f (c :: acc) rest

/-- Parse a JSON string literal (input must start with a double quote). -/
def pString (s : List Char) : Option (String × List Char) :=
  match s with
  | c :: rest => if c = dquote then pStrChars (rest.length + 1) [] rest else none
  | [] => none

/-- Digits of a char list prefix. -/
def spanDigits (s : List Char) : List Char × List Char :=
  (s.takeWhile isAsciiDigit, s.dropWhile isAsciiDigit)

/-- Numeric value of a digit list. -/
def digitsToNat (ds : List Char) : Nat :=
  ds.foldl (fun a c => a * 10 + (c.toNat - 48)) 0

/-- Parse a JSON number literal per the JSON grammar:
`-?(0|[1-9][0-9]*)(.[0-9]+)?([eE][+-]?[0-9]+)?`. -/
def pNum (s : List Char) : Option (JsVal × List Char) :=
  let (neg, s1) := match s with
    | c :: rest => if c = '-' then (true, rest) else (false, s)
    | [] => (false, s)
  match s1 with
  | c :: rest =>
    if ¬ isAsciiDigit c then none
    else
      let (intDs, s2) :=
        if c = '0' then ([c], rest)
        else spanDigits s1
      -- "01" is invalid: after a leading zero no digit may follow
      if c = '0' && (match rest with | d :: _ => isAsciiDigit d | [] => false) then none
      else
        let (fracDs, s3) := match s2 with
          | p :: r2 =>
            if p = '.' then
              let (ds, r3) := spanDigits r2
              (some ds, r3)
            else (none, s2)
          | [] => (none, s2)
        match fracDs with
        | some [] => none
        | _ =>
          let fds := fracDs.getD []
          let expPart : Option (Option (Bool × List Char)) := match s3 with
            | p :: r4 =>
              if p = 'e' || p = 'E' then
                let (eneg, r5) := match r4 with
                  | q :: r5' =>
                    if q = '-' then (true, r5')
                    else if q = '+' then (false, r5')
                    else (false, r4)
                  | [] => (false, r4)
                let (eds, _) := spanDigits r5
                if eds.isEmpty then none else some (some (eneg, eds))
              else some none
            | [] => some none
          match expPart with
          | none => none
          | some expInfo =>
            let s4 := match s3 with
              | p :: r4 =>
                if p = 'e' || p = 'E' then
                  let r5 := match r4 with
                    | q :: r5' => if q = '-' || q = '+' then r5' else r4
                    | [] => r4
                  (spanDigits r5).2
                else s3
              | [] => s3
            let mantNat := digitsToNat (intDs ++ fds)
            let mant : Int := if neg then -(mantNat : Int) else (mantNat : Int)
            let expV : Int := match expInfo with
              | some (eneg, eds) =>
                let v : Int := (digitsToNat eds : Int)
                if eneg then -v else v
              | none => 0
            some (.num mant (expV - (fds.length : Int)), s4)
  | [] => none

mutual

/-- Parse one JSON value (recursive descent, fueled). -/
def pVal : Nat → List Char → Option (JsVal × List Char)
  | 0, _ => none
  | f + 1, s =>
    let s := skipWs s
    match s with
    | [] => none
    | c :: rest =>
      if c = lbrace then
        let r := skipWs rest
        match r with
        | d :: r2 =>
          if d = rbrace then some (.obj [], r2)
          else
            match pFields f r with
            | some (fs, r3) =>
              some (.obj (fs.foldl (fun m p => JsMap.set m p.1 p.2) JsMap.empty), r3)
            | none => none
        | [] => none
      else if c = '[' then
        let r := skipWs rest
        match r with
        | d :: r2 =>
          if d = ']' then some (.arr [], r2)
          else
            match pElems f r with
            | some (vs, r3) => some (.arr vs, r3)
            | none => none
        | [] => none
      else if c = dquote then
        match pString s with
        | some (str, r) => some (.str str, r)
        | none => none
      else if "true".data.isPrefixOf s then some (.bool true, s.drop 4)
      else if "false".data.isPrefixOf s then some (.bool false, s.drop 5)
      else if "null".data.isPrefixOf s then some (.null, s.drop 4)
      else pNum s

/-- Parse a comma-separated list of array elements up to `]`. -/
def pElems : Nat → List Char → Option (List JsVal × List Char)
  | 0, _ => none
  | f + 1, s =>
    match pVal f s with
    | some (v, r) =>
      let r := skipWs r
      match r with
      | c :: r2 =>
        if c = ',' then
          match pElems f r2 with
          | some (vs, r3) => some (v :: vs, r3)
          | none => none
        else if c = ']' then some ([v], r2)
        else none
      | [] => none
    | none => none

/-- Parse a comma-separated list of object members up to the closing brace. -/
def pFields : Nat → List Char → Option (List (String × JsVal) × List Char)
  | 0, _ => none
  | f + 1, s =>
    let s := skipWs s
    match pString s with
    | some (k, r) =>
      let r := skipWs r
      match r with
      | c :: r2 =>
        if c = ':' then
          match pVal f r2 with
          | some (v, r3) =>
            let r3 := skipWs r3
            match r3 with
            | d :: r4 =>
              if d = ',' then
                match pFields f r4 with
                | some (fs, r5) => some ((k, v) :: fs, r5)
                | none => none
              else if d = rbrace then some ([(k, v)], r4)
              else none
            | [] => none
          | none => none
        else none
      | [] => none
    | none => none

end

/-- `JSON.parse` on a whole text: one value plus trailing whitespace only. -/
def jsonParse (s : List Char) : Option JsVal :=
  match pVal (2 * s.length + 2) s with
  | some (v, rest) => if skipWs rest = [] then some v else none
  | none => none

/-! ## A backtracking regex engine

`McpService.extractToolCalls` and `sanitizeContentForToolCalls` are driven by
JS regexes.  `RE` is a small regex AST covering exactly the constructs those
regexes use, and `mrun` is a continuation-passing backtracking matcher with
JS semantics: leftmost match, greedy and lazy repetition with backtracking,
left-biased alternation, zero-width lookahead, and the empty-iteration guard
of the ECMAScript repetition rules. -/

/-- Capture list: most recent capture of each group first. -/
abbrev Caps : Type := List (Nat × List Char)

/-- The text captured by a group, if the group matched. -/
def capsGet (caps : Caps) (n : Nat) : Option (List Char) :=
  (List.find? (fun p => p.1 == n) caps).map (·.2)

/-- The text captured by a group, defaulting to the empty string. -/
def capsGetD (caps : Caps) (n : Nat) : List Char := (capsGet caps n).getD []

/-- Regex AST: literals, character classes, concatenation, alternation,
greedy/lazy Kleene star, capturing groups, lookahead, and end-of-input. -/
inductive RE where
  | lit (l : List Char)
  | cls (p : Char → Bool)
  | seq (a b : RE)
  | alt (a b : RE)
  | star (lzy : Bool) (a : RE)
  | group (n : Nat) (a : RE)
  | look (a : RE)
  | eos

/-- Concatenate a list of regexes. -/
def reSeq : List RE → RE
  | [] => .lit []
  | [r] => r
  | r :: rest => .seq r (reSeq rest)

/-- Greedy `+`. -/
def rePlus (a : RE) : RE := .seq a (.star false a)

/-- First-success choice evaluated lazily in the second argument. -/
def orElseO {α : Type} (a : Option α) (b : Unit → Option α) : Option α :=
  match a with
  | some x => some x
  | none => b ()

/-- The backtracking matcher: `mrun fuel re s i caps k` tries to match `re`
in `s` starting at position `i` and calls the continuation `k` with the end
position and updated captures of each candidate, in JS preference order. -/
def mrun : Nat → RE → List Char → Nat → Caps →
    (Nat → Caps → Option (Nat × Caps)) → Option (Nat × Caps)
  | 0, _, _, _, _, _ => none
  | f + 1, re, s, i, caps, k =>
    match re with
    | .lit l => if l.isPrefixOf (s.drop i) then k (i + l.length) caps else none
    | .cls p =>
      match s.get? i with
      | some c => if p c then k (i + 1) caps else none
      | none => none
    | .seq a b => mrun f a s i caps (fun j c2 => mrun f b s j c2 k)
    | .alt a b => orElseO (mrun f a s i caps k) (fun _ => mrun f b s i caps k)
    | .star lzy a =>
      if lzy then
        orElseO (k i caps) (fun _ =>
          mrun f a s i caps (fun j c2 =>
            if i < j then mrun f (.star true a) s j c2 k else none))
      else
        orElseO (mrun f a s i caps (fun j c2 =>
            if i < j then mrun f (.star false a) s j c2 k else none))
          (fun _ => k i caps)
    | .group n a =>
      mrun f a s i caps (fun j c2 => k j ((n, (s.drop i).take (j - i)) :: c2))
    | .look a =>
      match mrun f a s i caps (fun j c2 => some (j, c2)) with
      | some (_, c2) => k i c2
      | none => none
    | .eos => if i = s.length then k i caps else none

/-- Fuel ample for every pattern in this file: the matcher descends at most a
constant number of nodes per consumed character plus the pattern size. -/
def reFuel (s : List Char) : Nat := 8 * (s.length + 2) + 200

/-- Try a match anchored at position `i`. -/
def matchAt (re : RE) (s : List Char) (i : Nat) : Option (Nat × Caps) :=
  mrun (reFuel s) re s i [] (fun j c => some (j, c))

/-- Scan positions `i, i+1, …` for the leftmost match (fueled). -/
def findFromAux : Nat → RE → List Char → Nat → Option (Nat × Nat × Caps)
  | 0, _, _, _ => none
  | f + 1, re, s, i =>
    if i > s.length then none
    else
      match matchAt re s i with
      | some (e, c) => some (i, e, c)
      | none => findFromAux f re s (i + 1)

/-- Leftmost match at or after position `i`. -/
def findFrom (re : RE) (s : List Char) (i : Nat) : Option (Nat × Nat × Caps) :=
  findFromAux (s.length + 1 - i) re s i

/-- One match of a global regex scan: span and captures. -/
structure RMatch where
  mstart : Nat
  mend : Nat
  caps : Caps

/-- Successive non-overlapping matches, as a JS `while (re.exec(text))` loop
over a `g`-flagged regex produces them (an empty match advances by one). -/
def allMatchesAux : Nat → RE → List Char → Nat → List RMatch
  | 0, _, _, _ => []
  | f + 1, re, s, i =>
    match findFrom re s i with
    | none => []
    | some (st, en, c) =>
      ⟨st, en, c⟩ :: allMatchesAux f re s (if st < en then en else en + 1)

/-- All matches of a global regex. -/
def allMatches (re : RE) (s : List Char) : List RMatch :=
  allMatchesAux (s.length + 1) re s 0

/-- Rebuild a string from the unmatched segments and the replacements. -/
def stitch (s : List Char) (repl : List Char → Caps → List Char) :
    Nat → List RMatch → List Char
  | last, [] => s.drop last
  | last, m :: ms =>
    (s.drop last).take (m.mstart - last) ++
      repl ((s.drop m.mstart).take (m.mend - m.mstart)) m.caps ++
      stitch s repl m.mend ms

/-- JS `text.replace(re, repl)` with a `g`-flagged regex; `repl` receives the
matched text and the captures. -/
def replaceAll (re : RE) (repl : List Char → Caps → List Char)
    (s : List Char) : List Char :=
  stitch s repl 0 (allMatches re s)

/-! ## The extraction patterns (`mcpService.ts`, lines 384-394 and 562-574) -/

/-- Any character — `[\s\S]` (and `.` under the `s` flag). -/
def anyCh : RE := .cls (fun _ => true)

/-- Greedy `\s*`. -/
def wsStar : RE := .star false (.cls isJsSpace)

/-- A lazily-grown brace-delimited fragment: `(\x7b[\s\S]*?\x7d)` without the
group. -/
def braceLazy : RE := reSeq [.lit [lbrace], .star true anyCh, .lit [rbrace]]

/-- Pattern 1, `standardToolCallRegex`:
`Tool call: (\w+)\s*Arguments: (…)\s*Result: (…)` followed by the lookahead
for `\n\nTool call:` or end of input, with `…` the lazy brace fragment. -/
def stdRE : RE :=
  reSeq [.lit "Tool call: ".data,
         .group 1 (rePlus (.cls isWordChar)),
         wsStar,
         .lit "Arguments: ".data,
         .group 2 braceLazy,
         wsStar,
         .lit "Result: ".data,
         .group 3 braceLazy,
         .look (.alt (.lit "\n\nTool call:".data) .eos)]

/-- Pattern 2, `bracketToolCallRegex`:
`[Calling tool (\w+) with args (\x7b[^\x7d]+\x7d|\x7b\x7d)]`. -/
def bracketRE : RE :=
  reSeq [.lit "[Calling tool ".data,
         .group 1 (rePlus (.cls isWordChar)),
         .lit " with args ".data,
         .group 2 (.alt (reSeq [.lit [lbrace],
                                rePlus (.cls (fun c => c != rbrace)),
                                .lit [rbrace]])
                        (.lit [lbrace, rbrace])),
         .lit "]".data]

/-- Pattern 3, `narrativeToolCallRegex`: `I'll use the (\w+) tool`. -/
def narrRE : RE :=
  reSeq [.lit ("I".data ++ apos :: "ll use the ".data),
         .group 1 (rePlus (.cls isWordChar)),
         .lit " tool".data]

/-- Pattern 4, `standaloneCodeBlockRegex`: three backticks, `([a-zA-Z]*)`,
a newline, a lazy body, three backticks. -/
def codeRE : RE :=
  reSeq [.lit "```".data,
         .group 1 (.star false (.cls isAsciiAlpha)),
         .lit "\n".data,
         .group 2 (.star true anyCh),
         .lit "```".data]

/-- The sanitizer's standard-block regex (`mcpService.ts` line 563): the same
shape as `stdRE` with the tool name not captured. -/
def stdSanRE : RE :=
  reSeq [.lit "Tool call: ".data,
         rePlus (.cls isWordChar),
         wsStar,
         .lit "Arguments: ".data,
         .group 1 braceLazy,
         wsStar,
         .lit "Result: ".data,
         .group 2 braceLazy,
         .look (.alt (.lit "\n\nTool call:".data) .eos)]

/-- The sanitizer's bracket regex (line 565): the bracket pattern with a
non-capturing argument group, then `\s*\n*`. -/
def brkSanRE : RE :=
  reSeq [.lit "[Calling tool ".data,
         rePlus (.cls isWordChar),
         .lit " with args ".data,
         .alt (reSeq [.lit [lbrace],
                      rePlus (.cls (fun c => c != rbrace)),
                      .lit [rbrace]])
              (.lit [lbrace, rbrace]),
         .lit "]".data,
         wsStar,
         .star false (.cls (fun c => c == '\n'))]

/-- The sanitizer's narrative regex (line 567): `I'll use the \w+ tool.`
followed by `\s*\n+` — stricter than the extractor's `narrRE`. -/
def narrSanRE : RE :=
  reSeq [.lit ("I".data ++ apos :: "ll use the ".data),
         rePlus (.cls isWordChar),
         .lit " tool.".data,
         wsStar,
         rePlus (.cls (fun c => c == '\n'))]

/-- The sanitizer's placeholder regex (line 569): `[Code block \d+]\s*\n*`. -/
def phRE : RE :=
  reSeq [.lit "[Code block ".data,
         rePlus (.cls isAsciiDigit),
         .lit "]".data,
         wsStar,
         .star false (.cls (fun c => c == '\n'))]

/-- The sanitizer reuses the code-block pattern of `codeRE` (line 571). -/
def codeSanRE : RE := codeRE

/-- The newline-collapsing regex (line 574): `\n` at least three times. -/
def nl3RE : RE :=
  reSeq [.lit "\n\n\n".data, .star false (.cls (fun c => c == '\n'))]

/-! ## `safeJsonParse` (`mcpService.ts`, lines 397-435) -/

/-- The trailing-comma repair regex `,\s*([\x5d\x7d])` (step 1). -/
def trailCommaRE : RE :=
  reSeq [.lit ",".data, wsStar,
         .group 1 (.cls (fun c => c == ']' || c == rbrace))]

/-- The bare-key repair regex `([\x7b,]\s*)(\w+)(\s*:)` (step 2). -/
def bareKeyRE : RE :=
  reSeq [.group 1 (reSeq [.cls (fun c => c == lbrace || c == ','), wsStar]),
         .group 2 (rePlus (.cls isWordChar)),
         .group 3 (reSeq [wsStar, .lit ":".data])]

/-- The single-quote repair regex: an apostrophe, one or more
non-apostrophes (group 1), an apostrophe (step 3). -/
def singleQRE : RE :=
  reSeq [.lit [apos],
         .group 1 (rePlus (.cls (fun c => c != apos))),
         .lit [apos]]

/-- JS `s.substring(a, b)`: swaps its ends when reversed, clamps to length. -/
def jsSubstring (s : List Char) (a b : Nat) : List Char :=
  (s.take (max a b)).drop (min a b)

/-- Index of the last occurrence of a character (JS `lastIndexOf`). -/
def lastIdxOf (s : List Char) (c : Char) : Option Nat :=
  match s.reverse.findIdx? (fun d => d == c) with
  | some k => some (s.length - 1 - k)
  | none => none

/-- Repair step 4: clip to `indexOf('\x7b') … lastIndexOf('\x7d')`
when both exist. -/
def clipBraces (s : List Char) : List Char :=
  match s.findIdx? (fun c => c == lbrace), lastIdxOf s rbrace with
  | some a, some b => jsSubstring s a (b + 1)
  | _, _ => s

/-- `safeJsonParse`: direct `JSON.parse` of the trimmed text; on failure the
four-step repair sequence (strip trailing commas, quote bare keys, convert
single-quoted to double-quoted, clip to the outermost brace span) and one
retry; on a second failure the given fallback. -/
def safeJsonParse (jsonString : List Char) (fallback : JsVal) : JsVal :=
  match jsonParse (jsTrim jsonString) with
  | some v => v
  | none =>
    let c0 := jsTrim jsonString
    let c1 := replaceAll trailCommaRE (fun _ caps => capsGetD caps 1) c0
    let c2 := replaceAll bareKeyRE
      (fun _ caps =>
        capsGetD caps 1 ++ dquote :: capsGetD caps 2 ++ dquote :: capsGetD caps 3) c1
    let c3 := replaceAll singleQRE
      (fun _ caps => dquote :: capsGetD caps 1 ++ [dquote]) c2
    let c4 := clipBraces c3
    match jsonParse c4 with
    | some v => v
    | none => fallback

/-! ## `McpService.extractToolCalls` (`mcpService.ts`, lines 381-556) -/

/-- A tool call record as pushed by `extractToolCalls`. -/
structure ToolCallR where
  name : String
  args : JsVal
  status : String
  result : JsVal

/-- The fallback result object passed to `safeJsonParse` for a standard
block's result fragment (lines 449-453). -/
def stdFallbackResult (resultText : List Char) : JsVal :=
  .obj [("success", .bool true),
        ("data", .str "Parsing failed, showing raw result"),
        ("raw", .str ⟨resultText⟩)]

/-- Status derivation (lines 456-459): `error` exactly when the (truthy)
result has a field `success` strictly equal to `false`. -/
def statusOfResult (result : JsVal) : String :=
  match result.getField "success" with
  | some (.bool false) => "error"
  | _ => "success"

/-- The calls produced by the standard-pattern loop (lines 439-470). -/
def stdCalls (content : List Char) : List ToolCallR :=
  (allMatches stdRE content).map (fun m =>
    let argsText := capsGetD m.caps 2
    let resultText := capsGetD m.caps 3
    let result := safeJsonParse resultText (stdFallbackResult resultText)
    { name := ⟨capsGetD m.caps 1⟩,
      args := safeJsonParse argsText (.obj []),
      status := statusOfResult result,
      result := result })

/-- The synthetic success marker used by the bracket and narrative loops. -/
def successResult : JsVal :=
  .obj [("success", .bool true), ("data", .str "Tool execution successful")]

/-- The calls produced by the bracket-pattern loop (lines 473-490). -/
def brkCalls (content : List Char) : List ToolCallR :=
  (allMatches bracketRE content).map (fun m =>
    { name := ⟨capsGetD m.caps 1⟩,
      args := safeJsonParse (capsGetD m.caps 2) (.obj []),
      status := "success",
      result := successResult })

/-- The calls produced by the narrative-pattern loop (lines 493-506). -/
def narrCalls (content : List Char) : List ToolCallR :=
  (allMatches narrRE content).map (fun m =>
    { name := ⟨capsGetD m.caps 1⟩,
      args := .obj [],
      status := "success",
      result := successResult })

/-- The calls produced by the code-block loop (lines 508-553): code blocks
whose start index lies inside a standard-pattern match are skipped. -/
def codeCalls (content : List Char) : List ToolCallR :=
  let ranges := (allMatches stdRE content).map (fun m => (m.mstart, m.mend))
  ((allMatches codeRE content).filter (fun m =>
      !(ranges.any (fun r => r.1 ≤ m.mstart && m.mstart < r.2)))).map (fun m =>
    let langRaw := capsGetD m.caps 1
    let language : String := if langRaw.isEmpty then "text" else ⟨langRaw⟩
    let codeContent := jsTrim (capsGetD m.caps 2)
    { name := "code_block",
      args := .obj [("language", .str language)],
      status := "success",
      result := .obj [("success", .bool true),
                      ("data", .str "Code block rendered"),
                      ("codeBlock", .obj [("language", .str language),
                                          ("content", .str ⟨codeContent⟩)])] })

/-- `extractToolCalls`: the four pattern loops run in sequence, each
appending to the shared list. -/
def extractToolCalls (content : List Char) : List ToolCallR :=
  stdCalls content ++ brkCalls content ++ narrCalls content ++ codeCalls content

/-- `sanitizeContentForToolCalls` (lines 559-578): five global replacements,
newline collapsing, and a final trim. -/
def sanitizeContentForToolCalls (content : List Char) : List Char :=
  let s1 := replaceAll stdSanRE (fun _ _ => []) content
  let s2 := replaceAll brkSanRE (fun _ _ => []) s1
  let s3 := replaceAll narrSanRE (fun _ _ => []) s2
  let s4 := replaceAll phRE (fun _ _ => []) s3
  let s5 := replaceAll codeSanRE (fun _ _ => "[Code block rendered]".data) s4
  let s6 := replaceAll nl3RE (fun _ _ => "\n\n".data) s5
  jsTrim s6

/-- The parser interface of §4.3: cleaned text plus extracted calls, as
`McpService.sendMessage` combines `sanitizeContentForToolCalls` and
`extractToolCalls` (lines 362-371). -/
def extract (content : String) : String × List ToolCallR :=
  (⟨sanitizeContentForToolCalls content.data⟩, extractToolCalls content.data)

/-! ## Schema compilation (`mcp-client-typescript/utils/schema.ts`)

`JSchema` covers the schema shapes `createZodSchema` dispatches on, one
constructor per source branch, in the source's dispatch order (boolean
schema, `$ref`, `oneOf`, `anyOf`, `allOf`, then `type`).  The string
`pattern`/`format` and `enum` refinements are outside the claims' scope and
are omitted from the embedding.  `ZodT` is the compiled zod schema; its
validation semantics `zodCheck` follows zod v3: every key of an object shape
must parse (a missing key is parsed as `undefined`, which only `z.any()`
accepts), and unknown keys are stripped, not rejected. -/

inductive JSchema where
  | boolS (b : Bool)
  | refS
  | oneOf (ss : List JSchema)
  | anyOf (ss : List JSchema)
  | allOf (ss : List JSchema)
  | strT (minLength maxLength : Option Nat)
  | numT (isInt : Bool) (minimum maximum : Option Int)
  | boolT
  | nullT
  | arrT (items : Option JSchema) (minItems maxItems : Option Nat)
  | arrTupleT (minItems maxItems : Option Nat)
  | objT (properties : List (String × JSchema)) (required : List String)
  | unknownT

inductive ZodT where
  | any
  | never
  | union (xs : List ZodT)
  | inter (a b : ZodT)
  | str (minL maxL : Option Nat)
  | num (isInt : Bool) (mn mx : Option Int)
  | boolean
  | nullT
  | arr (item : ZodT) (minI maxI : Option Nat)
  | obj (shape : List (String × ZodT))

/-- `createZodSchema` (fueled against nested recursion; the fuel exceeds the
nesting depth of every schema in this development). -/
def createZodSchema : Nat → JSchema → ZodT
  | 0, _ => .any
  | f + 1, s =>
    match s with
    | .boolS b => if b then .any else .never
    | .refS => .any
    | .oneOf ss =>
      let zs := ss.map (createZodSchema f)
      match zs with
      | [] => .any
      | [z] => z
      | _ => .union zs
    | .anyOf ss =>
      let zs := ss.map (createZodSchema f)
      match zs with
      | [] => .any
      | [z] => z
      | _ => .union zs
    | .allOf ss => ss.foldl (fun acc s' => .inter acc (createZodSchema f s')) .any
    | .strT mn mx => .str mn mx
    | .numT isInt mn mx => .num isInt mn mx
    | .boolT => .boolean
    | .nullT => .nullT
    | .arrT items mn mx =>
      let itemSchema := match items with
        | some s' => createZodSchema f s'
        | none => .any
      .arr itemSchema mn mx
    | .arrTupleT mn mx =>
      -- tuple `items` degrade to `z.any()` items with a logged warning
      .arr .any mn mx
    | .objT properties required =>
      let shape := properties.map (fun p => (p.1, createZodSchema f p.2))
      let zodSchema := ZodT.obj shape
      if required.length > 0 then
        -- the source copies the shape and reassigns each required key to
        -- itself (`partialShape[key] = partialShape[key]`), so the rebuilt
        -- object has the same shape
        ZodT.obj shape
      else zodSchema
    | .unknownT => .any

/-- Whether the exact decimal `mant × 10 ^ exp10` is at most the integer
bound `b`. -/
def numLe (m e b : Int) : Bool :=
  if e ≥ 0 then decide (m * 10 ^ e.toNat ≤ b) else decide (m ≤ b * 10 ^ (-e).toNat)

/-- Whether the exact decimal `mant × 10 ^ exp10` is at least `b`. -/
def numGe (m e b : Int) : Bool :=
  if e ≥ 0 then decide (b ≤ m * 10 ^ e.toNat) else decide (b * 10 ^ (-e).toNat ≤ m)

/-- Whether the exact decimal `mant × 10 ^ exp10` is an integer. -/
def numIsInt (m e : Int) : Bool :=
  if e ≥ 0 then true else decide (m % 10 ^ (-e).toNat = 0)

/-- Field lookup on a parsed object's field list. -/
def objField (fs : List (String × JsVal)) (k : String) : Option JsVal :=
  (List.find? (fun p => p.1 == k) fs).map (·.2)

/-- zod validation: `zodCheck fuel t path v` is the list of violations
(property path and reason) of value `v` against compiled schema `t`; `none`
is JS `undefined` (a missing object key).  Empty list = `parse` succeeds. -/
def zodCheck : Nat → ZodT → List String → Option JsVal → List (List String × String)
  | 0, _, path, _ => [(path, "fuel")]
  | f + 1, t, path, v =>
    match t with
    | .any => []
    | .never => [(path, "never")]
    | .union xs =>
      if xs.any (fun x => (zodCheck f x path v).isEmpty) then []
      else [(path, "invalid_union")]
    | .inter a b => zodCheck f a path v ++ zodCheck f b path v
    | .str mn mx =>
      match v with
      | none => [(path, "required")]
      | some (.str s) =>
        (match mn with
         | some n => if s.length < n then [(path, "too_small")] else []
         | none => []) ++
        (match mx with
         | some n => if s.length > n then [(path, "too_big")] else []
         | none => [])
      | some _ => [(path, "invalid_type")]
    | .num isInt mn mx =>
      match v with
      | none => [(path, "required")]
      | some (.num m e) =>
        (if isInt && !(numIsInt m e) then [(path, "not_integer")] else []) ++
        (match mn with
         | some b => if !(numGe m e b) then [(path, "too_small")] else []
         | none => []) ++
        (match mx with
         | some b => if !(numLe m e b) then [(path, "too_big")] else []
         | none => [])
      | some _ => [(path, "invalid_type")]
    | .boolean =>
      match v with
      | none => [(path, "required")]
      | some (.bool _) => []
      | some _ => [(path, "invalid_type")]
    | .nullT =>
      match v with
      | none => [(path, "required")]
      | some .null => []
      | some _ => [(path, "invalid_type")]
    | .arr item mn mx =>
      match v with
      | none => [(path, "required")]
      | some (.arr xs) =>
        (match mn with
         | some n => if xs.length < n then [(path, "too_small")] else []
         | none => []) ++
        (match mx with
         | some n => if xs.length > n then [(path, "too_big")] else []
         | none => []) ++
        (xs.enum.map (fun p => zodCheck f item (path ++ [toString p.1]) (some p.2))).flatten
      | some _ => [(path, "invalid_type")]
    | .obj shape =>
      match v with
      | none => [(path, "required")]
      | some (.obj fs) =>
        (shape.map (fun p => zodCheck f p.2 (path ++ [p.1]) (objField fs p.1))).flatten
      | some _ => [(path, "invalid_type")]

/-- `schema.parse(input)` succeeds exactly when there are no violations. -/
def zodAccepts (t : ZodT) (v : JsVal) : Bool :=
  (zodCheck 1000 t [] (some v)).isEmpty

/-! ## The approval gate (`mcp-client-typescript/server.ts`, lines 586-675)

In external mode (`hasUiCallback === true`) each approval request creates a
promise, stores `{toolName, args, resolve}` in `pendingApprovals` under the
key  `toolName + "_" + Date.now()`, and schedules `resolve(false)` after
30000 ms.  `/api/approve-tool` resolves the stored promise with
`approved === true` and deletes the entry; a missing `id` is a 400, an
unknown `id` a 404.  A JS promise resolves at most once: later `resolve`
calls are ignored.  Promises live in `promises` (a cell per request, `none`
while unresolved), and the scheduled timeouts in `timers` as
`(fireAt, promiseRef)` pairs. -/

structure PendingEntry where
  toolName : String
  args : JsVal
  resolveRef : Nat

structure SrvState where
  pending : JsMap PendingEntry
  promises : List (Option Bool)
  timers : List (Nat × Nat)

/-- Server start: no pending approvals, no promises, no timers. -/
def SrvState.init : SrvState := ⟨JsMap.empty, [], []⟩

/-- Resolve a promise: first resolution wins, later ones are ignored. -/
def resolveProm (ps : List (Option Bool)) (ref : Nat) (v : Bool) : List (Option Bool) :=
  match ps.get? ref with
  | some none => ps.set ref (some v)
  | _ => ps

/-- The resolution state of a request's promise. -/
def SrvState.promiseAt (st : SrvState) (ref : Nat) : Option Bool :=
  (st.promises.get? ref).join

/-- The approval callback body (lines 593-608): new promise, table entry
under `toolName + "_" + now`, and a timeout resolving to `false` scheduled
30000 ms ahead. -/
def createApproval (st : SrvState) (toolName : String) (args : JsVal) (now : Nat) : SrvState :=
  let ref := st.promises.length
  { pending := st.pending.set (toolName ++ "_" ++ toString now) ⟨toolName, args, ref⟩,
    promises := st.promises ++ [none],
    timers := st.timers ++ [(now + 30000, ref)] }

/-- HTTP responses of `/api/approve-tool`. -/
inductive ApiResp where
  | ok
  | badRequest
  | notFound

/-- The `/api/approve-tool` endpoint (lines 648-675): falsy `id` → 400;
unknown `id` → 404; otherwise resolve the entry's promise with
`approved === true` and delete the entry. -/
def approveTool (st : SrvState) (id : Option String) (approved : Option JsVal) :
    SrvState × ApiResp :=
  match id with
  | none => (st, .badRequest)
  | some i =>
    if i = "" then (st, .badRequest)
    else
      match st.pending.get? i with
      | none => (st, .notFound)
      | some entry =>
        let isTrue : Bool := match approved with
          | some (.bool true) => true
          | _ => false
        ({ st with promises := resolveProm st.promises entry.resolveRef isTrue,
                   pending := st.pending.del i }, .ok)

/-- The scheduled timeout firing (lines 604-606): `resolve(false)` — the
table entry is NOT removed. -/
def fireTimeout (st : SrvState) (ref : Nat) : SrvState :=
  { st with promises := resolveProm st.promises ref false }

/-- Events the approval subsystem reacts to, in arrival order: a new
approval request, an external decision, or a scheduled timeout firing. -/
inductive SEvent where
  | create (toolName : String) (args : JsVal) (now : Nat)
  | decide (id : Option String) (approved : Option JsVal)
  | timeout (ref : Nat)

/-- One event step. -/
def stepS (st : SrvState) : SEvent → SrvState
  | .create n a t => createApproval st n a t
  | .decide id ap => (approveTool st id ap).1
  | .timeout ref => fireTimeout st ref

/-- Run a sequence of events. -/
def runS (st : SrvState) (es : List SEvent) : SrvState := es.foldl stepS st

/-- Whether an event is an explicit approving decision
(`approved === true`). -/
def isApproveTrue : SEvent → Bool
  | .decide _ (some (.bool true)) => true
  | _ => false

/-- Whether an event is the timeout of promise `ref` firing. -/
def isTimeoutOf (ref : Nat) : SEvent → Bool
  | .timeout r => r == ref
  | _ => false

/-- The promise refs reachable from the pending table. -/
def pendingRefs (m : JsMap PendingEntry) : List Nat :=
  m.map (fun p => p.2.resolveRef)

/-- Every table entry points below the promise store's length — an invariant
of the server (new entries always get the freshly appended promise). -/
def SrvState.RefsBounded (st : SrvState) : Prop :=
  ∀ r ∈ pendingRefs st.pending, r < st.promises.length

/-! ## The connection registry (`mcp-client-typescript/index.ts`)

`MCPClient` keeps: the aggregate `tools` array, `connectedServers` (id →
connected flag), `serverTools` (id → that server's tools) and
`reconnectAttempts`.  `connectToServer` is modelled on its successful path:
the script classifies as a supported transport, the spawn succeeds, and
`listTools` returns `toolsResult`; the catch-branch retry logic is not
reached on this path. -/

structure Tool where
  name : String
  description : String
  input_schema : JsVal

structure ClientState where
  tools : List Tool
  connectedServers : JsMap Bool
  serverTools : JsMap (List Tool)
  reconnectAttempts : JsMap Nat

/-- A fresh `MCPClient`. -/
def ClientState.init : ClientState := ⟨[], JsMap.empty, JsMap.empty, JsMap.empty⟩

/-- Node `path.basename` (posix): the part after the last slash. -/
def baseName (s : List Char) : List Char :=
  match lastIdxOf s '/' with
  | some k => s.drop (k + 1)
  | none => s

/-- Strip one trailing `.js`, `.py` or `.ts` extension (the anchored
alternation replace in `connectToServer`). -/
def stripExt (s : List Char) : List Char :=
  if ".js".data.isSuffixOf s then s.take (s.length - 3)
  else if ".py".data.isSuffixOf s then s.take (s.length - 3)
  else if ".ts".data.isSuffixOf s then s.take (s.length - 3)
  else s

/-- Server id extraction (`connectToServer`, lines 53-70): package names
(no separators, no `.js`/`.py` ending) are kept whole (`split('/').pop()`
with no slash present); otherwise the basename without extension. -/
def extractServerId (p : List Char) : List Char :=
  if ¬ p.contains '/' ∧ ¬ p.contains bslash ∧
     ¬ ".js".data.isSuffixOf p ∧ ¬ ".py".data.isSuffixOf p then p
  else stripExt (baseName p)

/-- `connectToServer(serverScriptPath)` on its successful path, with the
server's tool listing supplied as `toolsResult` (lines 50-150): if either the
normalized or extracted id is flagged connected, return unchanged; otherwise
reset the reconnect counter, OVERWRITE `this.tools` with the new server's
mapped tool list, and store the connected flag and the tool list under the
normalized id and (when different) the extracted id. -/
def connectToServer (st : ClientState) (serverScriptPath : String)
    (toolsResult : List Tool) : ClientState :=
  let serverId : String := ⟨extractServerId serverScriptPath.data⟩
  let normalizedId : String := ⟨stripServerTag serverId.data⟩
  if st.connectedServers.getD normalizedId false ||
     st.connectedServers.getD serverId false then st
  else
    let ra := st.reconnectAttempts.set normalizedId 0
    let tools' := toolsResult
    let cs1 := st.connectedServers.set normalizedId true
    let cs2 := if serverId ≠ normalizedId then cs1.set serverId true else cs1
    let st1 := st.serverTools.set normalizedId tools'
    let st2 := if serverId ≠ normalizedId then st1.set serverId tools' else st1
    { tools := tools', connectedServers := cs2, serverTools := st2,
      reconnectAttempts := ra }

/-- `disconnectFromServer(serverId)` (lines 620-678): lower-cased normalized
id, connected check under both ids, flags reset, tool lists deleted, and the
aggregate rebuilt from every still-flagged entry of `connectedServers`. -/
def disconnectFromServer (st : ClientState) (serverId : String) :
    ClientState × Bool :=
  let normalizedId : String := ⟨jsToLowerCase (stripServerTag serverId.data)⟩
  let directly :=
    if st.connectedServers.getD serverId false then true
    else st.connectedServers.getD normalizedId false
  if ¬ directly then (st, true)
  else
    let cs1 := st.connectedServers.set serverId false
    let cs2 := if serverId ≠ normalizedId then cs1.set normalizedId false else cs1
    let sts := (st.serverTools.del serverId).del normalizedId
    let anyConn := cs2.any (fun p => p.2)
    let tools' :=
      if ¬ anyConn then []
      else cs2.foldl (fun acc p =>
        if p.2 then acc ++ sts.getD p.1 [] else acc) []
    ({ st with tools := tools', connectedServers := cs2, serverTools := sts }, true)

/-- `getTools()` (lines 681-683): the aggregate array as is. -/
def getTools (st : ClientState) : List Tool := st.tools

/-! ## `processQueryStructured` (`mcp-client-typescript/index.ts`, lines 407-552)

The response content loop, with the model endpoint and tool transport as
oracles: `approval` is `getUserApproval` (the configured approval callback),
`callTool` the MCP `callTool` transport (an exception becomes `.error msg`),
and `followUp` the follow-up model call returning its first text block.
Conversation messages are `(role, content)` pairs. -/

inductive CBlock where
  | text (s : String)
  | toolUse (name : String) (input : JsVal)

structure TCall where
  name : String
  args : JsVal
  status : String
  result : JsVal

structure PQResult where
  content : String
  toolCalls : List TCall
  messages : List (String × JsVal)

/-- Process one content block (lines 444-549). -/
def processBlock (approval : String → JsVal → Bool)
    (callTool : String → JsVal → Except String JsVal)
    (followUp : List (String × JsVal) → Option String)
    (acc : PQResult) : CBlock → PQResult
  | .text s => { acc with content := acc.content ++ s }
  | .toolUse toolName toolArgs =>
    if approval toolName toolArgs then
      match callTool toolName toolArgs with
      | .ok executionResult =>
        let msgs := acc.messages ++
          [("user", (executionResult.getField "content").getD .null)]
        let c' := match followUp msgs with
          | some txt => acc.content ++ "\n\n" ++ txt
          | none => acc.content
        { content := c',
          toolCalls := acc.toolCalls ++
            [⟨toolName, toolArgs, "success", executionResult⟩],
          messages := msgs }
      | .error emsg =>
        let msgs := acc.messages ++
          [("user", .str ("Error executing tool " ++ toolName ++ ": " ++ emsg))]
        let c' := match followUp msgs with
          | some txt => acc.content ++ "\n\n" ++ txt
          | none => acc.content
        { content := c',
          toolCalls := acc.toolCalls ++
            [⟨toolName, toolArgs, "error", .obj [("error", .str emsg)]⟩],
          messages := msgs }
    else
      let msgs := acc.messages ++
        [("user", .str ("The user did not approve the execution of tool " ++
                        toolName ++ "."))]
      let c' := match followUp msgs with
        | some txt => acc.content ++ "\n\n" ++ txt
        | none => acc.content
      { content := c',
        toolCalls := acc.toolCalls ++
          [⟨toolName, toolArgs, "not_approved",
            .obj [("error", .str "Tool execution was not approved by the user")]⟩],
        messages := msgs }

/-- `processQueryStructured(query)` over the model response's content
blocks. -/
def processQueryStructured (approval : String → JsVal → Bool)
    (callTool : String → JsVal → Except String JsVal)
    (followUp : List (String × JsVal) → Option String)
    (query : String) (blocks : List CBlock) : PQResult :=
  blocks.foldl (processBlock approval callTool followUp)
    { content := "", toolCalls := [], messages := [("user", .str query)] }

/-! ## Supporting lemmas -/

theorem toNat_ofNat_valid (n : Nat) (h : n.isValidChar) :
    (Char.ofNat n).toNat = n := by
  unfold Char.ofNat
  rw [dif_pos h]
  rfl

theorem char_toLower_toLower (c : Char) : c.toLower.toLower = c.toLower := by
  by_cases h : c.toNat ≥ 65 ∧ c.toNat ≤ 90
  · have hv : (c.toNat + 32).isValidChar := Or.inl (by omega)
    have h1 : c.toLower = Char.ofNat (c.toNat + 32) := by
      unfold Char.toLower
      rw [if_pos h]
    have h2 : (Char.ofNat (c.toNat + 32)).toNat = c.toNat + 32 :=
      toNat_ofNat_valid _ hv
    rw [h1]
    unfold Char.toLower
    rw [if_neg (by rw [h2]; omega)]
  · unfold Char.toLower
    rw [if_neg h, if_neg h]

theorem jsToLowerCase_idem (l : List Char) :
    jsToLowerCase (jsToLowerCase l) = jsToLowerCase l := by
  induction l with
  | nil => rfl
  | cons c cs ih =>
    simp only [jsToLowerCase, List.map_cons, List.map_map] at *
    exact List.cons_eq_cons.mpr ⟨char_toLower_toLower c, ih⟩

theorem stripServerTag_of_no_tag (l : List Char)
    (h1 : "mcp-server-".data.isPrefixOf l = false)
    (h2 : "server-".data.isPrefixOf l = false) :
    stripServerTag l = l := by
  unfold stripServerTag
  rw [if_neg (by simp [h1]), if_neg (by simp [h2])]

/-! ## Claim C5 — identifier normalization -/

/-- Claim C5, counterexample: the claim asserts
`normalize(normalize x) == normalize x` for every `x` and
`normalize "Server-FOO" == "foo"`; at the claim's own input `"Server-FOO"`
the code instead returns `"server-foo"` (the case-sensitive prefix strip
runs before lower-casing, so the capitalized prefix survives), and a second
application strips further, refuting idempotence. -/
theorem claim_C5_counterexample :
    normalizeServerId "Server-FOO" ≠ "foo" ∧
    normalizeServerId (normalizeServerId "Server-FOO") ≠
      normalizeServerId "Server-FOO" := by
  constructor
  · decide
  · decide

/-- Claim C5 (amended): `normalizeServerId` maps `"mcp-server-foo"` to
`"foo"` but `"Server-FOO"` only to `"server-foo"` (one more application then
yields `"foo"`), and it is idempotent exactly on those inputs whose
normalized form does not itself begin with a `"server-"` or `"mcp-server-"`
prefix. -/
theorem claim_C5_amended :
    normalizeServerId "mcp-server-foo" = "foo" ∧
    normalizeServerId "Server-FOO" = "server-foo" ∧
    normalizeServerId (normalizeServerId "Server-FOO") = "foo" ∧
    (∀ s : String,
      "mcp-server-".data.isPrefixOf (normalizeServerId s).data = false →
      "server-".data.isPrefixOf (normalizeServerId s).data = false →
      normalizeServerId (normalizeServerId s) = normalizeServerId s) := by
  refine ⟨by decide, by decide, by decide, ?_⟩
  intro s h1 h2
  show (⟨jsToLowerCase (stripServerTag (normalizeServerId s).data)⟩ : String) =
    normalizeServerId s
  rw [stripServerTag_of_no_tag _ h1 h2]
  show (⟨jsToLowerCase (jsToLowerCase (stripServerTag s.data))⟩ : String) = _
  rw [jsToLowerCase_idem]
  rfl

/-- Claim C5, witness: the amended idempotence applied at `"ABC"`. -/
theorem claim_C5_witness :
    "mcp-server-".data.isPrefixOf (normalizeServerId "ABC").data = false ∧
    "server-".data.isPrefixOf (normalizeServerId "ABC").data = false ∧
    normalizeServerId (normalizeServerId "ABC") = normalizeServerId "ABC" :=
  ⟨by decide, by decide, claim_C5_amended.2.2.2 "ABC" (by decide) (by decide)⟩

/-! ## Claim C7 — extraction on pattern-free text -/

theorem allMatches_nil {re : RE} {s : List Char} (h : findFrom re s 0 = none) :
    allMatches re s = [] := by
  unfold allMatches allMatchesAux
  simp [h]

theorem replaceAll_id {re : RE} {repl : List Char → Caps → List Char}
    {s : List Char} (h : findFrom re s 0 = none) : replaceAll re repl s = s := by
  unfold replaceAll
  rw [allMatches_nil h]
  unfold stitch
  simp

theorem stdCalls_nil {s : List Char} (h : findFrom stdRE s 0 = none) :
    stdCalls s = [] := by
  unfold stdCalls
  rw [allMatches_nil h]
  rfl

theorem brkCalls_nil {s : List Char} (h : findFrom bracketRE s 0 = none) :
    brkCalls s = [] := by
  unfold brkCalls
  rw [allMatches_nil h]
  rfl

theorem narrCalls_nil {s : List Char} (h : findFrom narrRE s 0 = none) :
    narrCalls s = [] := by
  unfold narrCalls
  rw [allMatches_nil h]
  rfl

theorem codeCalls_nil {s : List Char} (h : findFrom codeRE s 0 = none) :
    codeCalls s = [] := by
  unfold codeCalls
  rw [allMatches_nil h]
  rfl

/-- Claim C7, counterexample: `" x"` contains none of the four recognizable
patterns, yet `extract` does not return it unchanged — the cleaner always
trims outer whitespace (and collapses newline runs), so `cleanedText` is
`"x"`. -/
theorem claim_C7_counterexample :
    findFrom stdRE " x".data 0 = none ∧
    findFrom bracketRE " x".data 0 = none ∧
    findFrom narrRE " x".data 0 = none ∧
    findFrom codeRE " x".data 0 = none ∧
    (extract " x").2 = [] ∧
    (extract " x").1 = "x" ∧
    ("x" : String) ≠ " x" :=
  ⟨rfl, rfl, rfl, rfl, rfl, rfl, by decide⟩

/-- Claim C7 (amended): on text in which none of the parser's or cleaner's
patterns match (the four recognizable patterns plus the cleaner's stricter
bracket/narrative variants and the `[Code block N]` placeholder), `extract`
returns an empty tool-call list and the input with runs of three or more
newlines collapsed to a blank line and outer whitespace trimmed; when the
input also has no such newline run and is its own trim, it is returned fully
unchanged. -/
theorem claim_C7_amended :
    (∀ t : String,
      findFrom stdRE t.data 0 = none →
      findFrom bracketRE t.data 0 = none →
      findFrom narrRE t.data 0 = none →
      findFrom codeRE t.data 0 = none →
      findFrom stdSanRE t.data 0 = none →
      findFrom brkSanRE t.data 0 = none →
      findFrom narrSanRE t.data 0 = none →
      findFrom phRE t.data 0 = none →
      extract t =
        (⟨jsTrim (replaceAll nl3RE (fun _ _ => "\n\n".data) t.data)⟩, [])) ∧
    (∀ t : String,
      findFrom stdRE t.data 0 = none →
      findFrom bracketRE t.data 0 = none →
      findFrom narrRE t.data 0 = none →
      findFrom codeRE t.data 0 = none →
      findFrom stdSanRE t.data 0 = none →
      findFrom brkSanRE t.data 0 = none →
      findFrom narrSanRE t.data 0 = none →
      findFrom phRE t.data 0 = none →
      findFrom nl3RE t.data 0 = none →
      jsTrim t.data = t.data →
      extract t = (t, [])) := by
  have main : ∀ t : String,
      findFrom stdRE t.data 0 = none →
      findFrom bracketRE t.data 0 = none →
      findFrom narrRE t.data 0 = none →
      findFrom codeRE t.data 0 = none →
      findFrom stdSanRE t.data 0 = none →
      findFrom brkSanRE t.data 0 = none →
      findFrom narrSanRE t.data 0 = none →
      findFrom phRE t.data 0 = none →
      extract t =
        (⟨jsTrim (replaceAll nl3RE (fun _ _ => "\n\n".data) t.data)⟩, []) := by
    intro t h1 h2 h3 h4 h5 h6 h7 h8
    have hcode : findFrom codeSanRE t.data 0 = none := h4
    unfold extract extractToolCalls sanitizeContentForToolCalls
    simp only [stdCalls_nil h1, brkCalls_nil h2, narrCalls_nil h3,
               codeCalls_nil h4, replaceAll_id h5, replaceAll_id h6,
               replaceAll_id h7, replaceAll_id h8, replaceAll_id hcode,
               List.append_nil, List.nil_append]
  refine ⟨main, ?_⟩
  intro t h1 h2 h3 h4 h5 h6 h7 h8 h9 h10
  rw [main t h1 h2 h3 h4 h5 h6 h7 h8, replaceAll_id h9, h10]

/-- Claim C7, witness: the amended statement applied at `"hello"`, whose
hypotheses all hold and whose extraction is the unchanged input. -/
theorem claim_C7_witness :
    findFrom stdRE "hello".data 0 = none ∧
    findFrom nl3RE "hello".data 0 = none ∧
    jsTrim "hello".data = "hello".data ∧
    extract "hello" = ("hello", []) :=
  ⟨rfl, rfl, rfl,
   claim_C7_amended.2 "hello" rfl rfl rfl rfl rfl rfl rfl rfl rfl rfl⟩

/-! ## Claim C9 — emission order groups by pattern kind -/

/-- Claim C9: `extractToolCalls` concatenates the four pattern loops'
outputs — all canonical-block calls, then bracket calls, then narrative
calls, then code-block calls — so a bracket call at text position 0 is
emitted after a canonical block that starts later (position 31) in the
text. -/
theorem claim_C9_grouped_order :
    (∀ t : List Char, extractToolCalls t =
        stdCalls t ++ brkCalls t ++ narrCalls t ++ codeCalls t) ∧
    (allMatches bracketRE
        ("[Calling tool b with args \x7b\x7d]\n\nTool call: a\nArguments: \x7b\x7d\nResult: \x7b\"x\": 1\x7d").data).map
      (fun m => (m.mstart, m.mend)) = [(0, 29)] ∧
    (allMatches stdRE
        ("[Calling tool b with args \x7b\x7d]\n\nTool call: a\nArguments: \x7b\x7d\nResult: \x7b\"x\": 1\x7d").data).map
      (fun m => (m.mstart, m.mend)) = [(31, 74)] ∧
    (extractToolCalls
        ("[Calling tool b with args \x7b\x7d]\n\nTool call: a\nArguments: \x7b\x7d\nResult: \x7b\"x\": 1\x7d").data).map
      ToolCallR.name = ["a", "b"] :=
  ⟨fun _ => rfl, rfl, rfl, rfl⟩

/-! ## Claim C6 — embedded JSON recovery -/

/-- Claim C6, counterexample: in the canonical block
`Tool call: foo / Arguments: \x7b[\x7d / Result: \x7b"ok": 1\x7d` the
arguments fragment `\x7b[\x7d` fails parsing even after repair
(`safeJsonParse` returns its fallback), and the resulting ToolCall has the
empty-object placeholder as arguments but status `"success"`, not the
status `"error"` the claim requires for a fragment that is still
unparseable after repair. -/
theorem claim_C6_counterexample :
    safeJsonParse "\x7b[\x7d".data (.str "FB") = .str "FB" ∧
    extractToolCalls
        ("Tool call: foo\nArguments: \x7b[\x7d\nResult: \x7b\"ok\": 1\x7d").data =
      [{ name := "foo", args := .obj [], status := "success",
         result := .obj [("ok", .num 1 0)] }] ∧
    ("success" : String) ≠ "error" :=
  ⟨rfl, rfl, by decide⟩

/-- Claim C6 (amended): when direct parsing of a fragment fails the repair
sequence (strip trailing commas, quote bare keys, convert single to double
quotes, clip to the outermost brace span) is applied and parsing retried
once — a trailing-comma result is recovered into exactly one ToolCall; a
fragment still unparseable after repair is not dropped: arguments fall back
to the empty object, while a result falls back to
`\x7bsuccess: true, data: "Parsing failed, showing raw result",
raw: <fragment>\x7d` and the status stays `"success"` — `"error"` arises
only from a parsed result whose `success` field is `false`, never from
parse failure. -/
theorem claim_C6_amended :
    safeJsonParse ("\x7b\"success\":true,\x7d").data .null =
      .obj [("success", .bool true)] ∧
    extractToolCalls
        ("Tool call: calc\nArguments: \x7b\"a\":1\x7d\nResult: \x7b\"success\":true,\x7d").data =
      [{ name := "calc", args := .obj [("a", .num 1 0)], status := "success",
         result := .obj [("success", .bool true)] }] ∧
    safeJsonParse ("\x7b" ++ apos.toString ++ "a" ++ apos.toString ++ ": 1,\x7d").data .null =
      .obj [("a", .num 1 0)] ∧
    safeJsonParse "\x7ba: 1\x7d".data .null = .obj [("a", .num 1 0)] ∧
    safeJsonParse "xx\x7b\"a\":1\x7dyy".data .null = .obj [("a", .num 1 0)] ∧
    extractToolCalls
        ("Tool call: foo\nArguments: \x7b\"a\": 1\x7d\nResult: \x7b[\x7d").data =
      [{ name := "foo", args := .obj [("a", .num 1 0)], status := "success",
         result := .obj [("success", .bool true),
                         ("data", .str "Parsing failed, showing raw result"),
                         ("raw", .str "\x7b[\x7d")] }] ∧
    extractToolCalls
        ("Tool call: bad\nArguments: \x7b\"a\":1\x7d\nResult: \x7b\"success\": false\x7d").data =
      [{ name := "bad", args := .obj [("a", .num 1 0)], status := "error",
         result := .obj [("success", .bool false)] }] :=
  ⟨rfl, rfl, rfl, rfl, rfl, rfl, rfl⟩

/-! ## Claim C2 — required vs optional object properties -/

/-- Claim C2, code evaluation: for the schema
`\x7bproperties: \x7ba, b\x7d, required: [a]\x7d` the compiled validator
REJECTS `\x7ba: 1\x7d` with a violation naming `b` — the `required` handling
in `createZodSchema` is a no-op (`partialShape[key] = partialShape[key]`),
so every declared property ends up required, contradicting the claim that
`\x7ba: 1\x7d` validates.  The claim's other half does hold: `\x7bb: 1\x7d`
fails with a violation naming `a`, and an input with both properties is
accepted. -/
theorem claim_C2_code_eval :
    zodCheck 1000
        (createZodSchema 1000
          (.objT [("a", .numT false none none), ("b", .numT false none none)] ["a"]))
        [] (some (.obj [("a", .int 1)])) = [(["b"], "required")] ∧
    zodAccepts
        (createZodSchema 1000
          (.objT [("a", .numT false none none), ("b", .numT false none none)] ["a"]))
        (.obj [("a", .int 1)]) = false ∧
    zodCheck 1000
        (createZodSchema 1000
          (.objT [("a", .numT false none none), ("b", .numT false none none)] ["a"]))
        [] (some (.obj [("b", .int 1)])) = [(["a"], "required")] ∧
    zodAccepts
        (createZodSchema 1000
          (.objT [("a", .numT false none none), ("b", .numT false none none)] ["a"]))
        (.obj [("a", .int 1), ("b", .int 2)]) = true :=
  ⟨rfl, rfl, rfl, rfl⟩

/-! ## Claim C3 — the aggregate tool list under connect/disconnect -/

/-- Claim C3, counterexample: after connecting `alpha.js` (tool `alphaTool`)
and then `beta.js` (tool `betaTool`), the aggregate list holds ONLY the
second server's tool — `connectToServer` overwrites `this.tools` — so it
does not contain both servers' tools as the claim states. -/
theorem claim_C3_counterexample :
    (getTools (connectToServer
        (connectToServer ClientState.init "alpha.js" [⟨"alphaTool", "", .null⟩])
        "beta.js" [⟨"betaTool", "", .null⟩])).map Tool.name = ["betaTool"] ∧
    ¬ "alphaTool" ∈ (getTools (connectToServer
        (connectToServer ClientState.init "alpha.js" [⟨"alphaTool", "", .null⟩])
        "beta.js" [⟨"betaTool", "", .null⟩])).map Tool.name :=
  ⟨rfl, by decide⟩

/-- Claim C3 (amended): a successful connect to a not-yet-connected server
OVERWRITES the aggregate list with just that server's tools; after
`disconnect(id)` the aggregate is rebuilt from the remaining
connected-flagged entries — each stored key contributes its list, so a
server stored under both its raw and normalized ids contributes twice and
no deduplication by name happens — and a subsequent connect with the same
id overwrites the aggregate with the reconnected server's tools again. -/
theorem claim_C3_amended :
    (∀ (st : ClientState) (path : String) (ts : List Tool),
      (st.connectedServers.getD ⟨stripServerTag (extractServerId path.data)⟩ false ||
       st.connectedServers.getD ⟨extractServerId path.data⟩ false) = false →
      getTools (connectToServer st path ts) = ts) ∧
    (getTools (connectToServer
        (connectToServer ClientState.init "server-foo.js" [⟨"fooTool", "", .null⟩])
        "beta.js" [⟨"betaTool", "", .null⟩])).map Tool.name = ["betaTool"] ∧
    (getTools (disconnectFromServer (connectToServer
        (connectToServer ClientState.init "server-foo.js" [⟨"fooTool", "", .null⟩])
        "beta.js" [⟨"betaTool", "", .null⟩]) "beta").1).map Tool.name =
      ["fooTool", "fooTool"] ∧
    (getTools (connectToServer (disconnectFromServer (connectToServer
        (connectToServer ClientState.init "server-foo.js" [⟨"fooTool", "", .null⟩])
        "beta.js" [⟨"betaTool", "", .null⟩]) "beta").1
        "beta.js" [⟨"betaTool", "", .null⟩])).map Tool.name = ["betaTool"] := by
  refine ⟨?_, rfl, rfl, rfl⟩
  intro st path ts h
  unfold connectToServer getTools
  simp only [h]
  rw [if_neg (by simp [h])]

/-- Claim C3, witness: the overwrite fact applied to a fresh client and
`"x.js"`. -/
theorem claim_C3_witness :
    ((ClientState.init).connectedServers.getD
        ⟨stripServerTag (extractServerId "x.js".data)⟩ false ||
     (ClientState.init).connectedServers.getD
        ⟨extractServerId "x.js".data⟩ false) = false ∧
    getTools (connectToServer ClientState.init "x.js" [⟨"t", "", .null⟩]) =
      [⟨"t", "", .null⟩] :=
  ⟨rfl, claim_C3_amended.1 ClientState.init "x.js" [⟨"t", "", .null⟩] rfl⟩

/-! ## Claim C8 — the rejected branch of `processQueryStructured` -/

/-- Claim C8, counterexample: a tool call whose approval resolves to false
gets terminal status `"not_approved"` — not the declared status value
`"rejected"` the claim names, and not any member of the declared status
enumeration. -/
theorem claim_C8_counterexample :
    (processQueryStructured (fun _ _ => false) (fun _ _ => .error "never")
        (fun _ => none) "q" [.toolUse "write_file" (.obj [])]).toolCalls.map
      TCall.status = ["not_approved"] ∧
    ("not_approved" : String) ≠ "rejected" ∧
    ¬ ("not_approved" : String) ∈
      ["pending", "approved", "rejected", "running", "success", "error"] :=
  ⟨rfl, by decide, by decide⟩

/-- Claim C8 (amended): when the approval callback resolves to false the
call's terminal status is `"not_approved"` (a value outside the declared
pending/approved/rejected/running/success/error enumeration), the result is
the not-approved error object, the conversation gains the note "The user
did not approve the execution of tool X.", and the tool server is not
invoked — the outcome is identical for any two `callTool` transports. -/
theorem claim_C8_amended :
    ∀ (approval : String → JsVal → Bool)
      (ct ct' : String → JsVal → Except String JsVal)
      (followUp : List (String × JsVal) → Option String)
      (q name : String) (args : JsVal),
      approval name args = false →
      (processQueryStructured approval ct followUp q [.toolUse name args]).toolCalls =
        [⟨name, args, "not_approved",
          .obj [("error", .str "Tool execution was not approved by the user")]⟩] ∧
      (processQueryStructured approval ct followUp q [.toolUse name args]).messages =
        [("user", .str q),
         ("user", .str ("The user did not approve the execution of tool " ++
                        name ++ "."))] ∧
      processQueryStructured approval ct followUp q [.toolUse name args] =
        processQueryStructured approval ct' followUp q [.toolUse name args] := by
  intro approval ct ct' followUp q name args h
  refine ⟨?_, ?_, ?_⟩ <;>
    simp [processQueryStructured, processBlock, h]

/-- Claim C8, witness: the amended statement applied to an
always-rejecting approval callback and two different transports. -/
theorem claim_C8_witness :
    ((fun (_ : String) (_ : JsVal) => false) "t" JsVal.null = false) ∧
    (processQueryStructured (fun _ _ => false) (fun _ _ => .ok .null)
        (fun _ => none) "hi" [.toolUse "t" .null]).toolCalls =
      [⟨"t", .null, "not_approved",
        .obj [("error", .str "Tool execution was not approved by the user")]⟩] :=
  ⟨rfl,
   (claim_C8_amended (fun _ _ => false) (fun _ _ => .ok .null)
     (fun _ _ => .error "boom") (fun _ => none) "hi" "t" .null rfl).1⟩

/-! ## Lemmas for the approval gate -/

theorem listGet_append_left {α : Type} :
    ∀ (l l' : List α) (n : Nat), n < l.length → (l ++ l').get? n = l.get? n
  | [], _, _, h => by simp at h
  | _ :: _, _, 0, _ => rfl
  | _ :: t, l', n + 1, h =>
    listGet_append_left t l' n (by simpa using h)

theorem listGet_concat_self {α : Type} :
    ∀ (l : List α) (a : α), (l ++ [a]).get? l.length = some a
  | [], _ => rfl
  | _ :: t, a => listGet_concat_self t a

theorem listGet_set_self {α : Type} :
    ∀ (l : List α) (i : Nat) (a : α), i < l.length → (l.set i a).get? i = some a
  | [], _, _, h => by simp at h
  | _ :: _, 0, _, _ => rfl
  | _ :: t, i + 1, a, h => listGet_set_self t i a (by simpa using h)

theorem listGet_set_ne {α : Type} :
    ∀ (l : List α) (i j : Nat) (a : α), i ≠ j → (l.set i a).get? j = l.get? j
  | [], _, _, _, _ => rfl
  | _ :: _, 0, 0, _, hne => absurd rfl hne
  | _ :: _, 0, _ + 1, _, _ => rfl
  | _ :: _, _ + 1, 0, _, _ => rfl
  | _ :: t, i + 1, j + 1, a, hne =>
    listGet_set_ne t i j a (fun h => hne (by omega))

theorem listGet_lt_length {α : Type} :
    ∀ (l : List α) (n : Nat) (a : α), l.get? n = some a → n < l.length
  | [], n, _, h => by simp [List.get?] at h
  | _ :: _, 0, _, _ => by simp
  | _ :: t, n + 1, a, h => by
    have := listGet_lt_length t n a h
    simpa using Nat.succ_lt_succ this

theorem listSet_length {α : Type} :
    ∀ (l : List α) (i : Nat) (a : α), (l.set i a).length = l.length
  | [], _, _ => rfl
  | _ :: _, 0, _ => rfl
  | _ :: t, i + 1, a => by simp [List.set, listSet_length t i a]

theorem resolveProm_length (ps : List (Option Bool)) (ref : Nat) (v : Bool) :
    (resolveProm ps ref v).length = ps.length := by
  unfold resolveProm
  rcases h : ps.get? ref with _ | c
  · simp
  · cases c
    · simp [listSet_length]
    · simp

theorem resolveProm_keeps_resolved (ps : List (Option Bool)) (ref : Nat) (v : Bool)
    (p : Nat) (w : Bool) (h : ps.get? p = some (some w)) :
    (resolveProm ps ref v).get? p = some (some w) := by
  unfold resolveProm
  rcases hr : ps.get? ref with _ | c
  · exact h
  · cases c
    · have hne : ref ≠ p := by
        intro he
        rw [he, h] at hr
        exact Option.noConfusion (Option.some.injEq _ _ ▸ hr)
    
      rw [listGet_set_ne ps ref p (some v) hne]
      exact h
    · exact h

theorem resolveProm_resolves (ps : List (Option Bool)) (ref : Nat) (v : Bool)
    (h : ps.get? ref = some none) :
    (resolveProm ps ref v).get? ref = some (some v) := by
  unfold resolveProm
  rw [h]
  exact listGet_set_self ps ref (some v) (listGet_lt_length ps ref none h)

theorem resolveProm_other (ps : List (Option Bool)) (ref : Nat) (v : Bool)
    (p : Nat) (hne : ref ≠ p) :
    (resolveProm ps ref v).get? p = ps.get? p := by
  unfold resolveProm
  rcases hr : ps.get? ref with _ | c
  · rfl
  · cases c
    · exact listGet_set_ne ps ref p (some v) hne
    · rfl


theorem jsMapSet_get_self {α : Type} (m : JsMap α) (k : String) (v : α) :
    (m.set k v).get? k = some v := by
  induction m with
  | nil => simp [JsMap.set, JsMap.get?]
  | cons p rest ih =>
    by_cases h : p.1 = k
    · simp [JsMap.set, if_pos h, JsMap.get?, List.find?_cons_of_pos, h]
    · simp only [JsMap.set, if_neg h]
      rw [JsMap.get?, List.find?_cons_of_neg _ (by simpa using h)]
      exact ih

theorem jsMapSet_set_same {α : Type} (m : JsMap α) (k : String) (v w : α) :
    (m.set k v).set k w = m.set k w := by
  induction m with
  | nil => simp [JsMap.set]
  | cons p rest ih =>
    by_cases h : p.1 = k
    · simp [JsMap.set, h]
    · simp [JsMap.set, h, ih]

theorem jsMapSet_keys {α : Type} (m : JsMap α) (k : String) (v : α) :
    (m.set k v).map Prod.fst = m.map Prod.fst ∨
    (m.set k v).map Prod.fst = m.map Prod.fst ++ [k] := by
  induction m with
  | nil => right; rfl
  | cons p rest ih =>
    by_cases h : p.1 = k
    · left; simp [JsMap.set, h]
    · rcases ih with ih | ih
      · left; simp [JsMap.set, h, ih]
      · right; simp [JsMap.set, h, ih]

theorem jsMapSet_WF {α : Type} (m : JsMap α) (k : String) (v : α)
    (hwf : JsMap.WF m) : JsMap.WF (m.set k v) := by
  induction m with
  | nil => simp [JsMap.set, JsMap.WF]
  | cons p rest ih =>
    have hrest : JsMap.WF rest := (List.nodup_cons.mp hwf).2
    have hnotin : p.1 ∉ rest.map Prod.fst := (List.nodup_cons.mp hwf).1
    by_cases h : p.1 = k
    · unfold JsMap.WF
      simp only [JsMap.set, if_pos h, List.map_cons]
      exact List.nodup_cons.mpr ⟨by simpa using hnotin, hrest⟩
    · unfold JsMap.WF
      simp only [JsMap.set, if_neg h, List.map_cons]
      refine List.nodup_cons.mpr ⟨?_, ih hrest⟩
      rcases jsMapSet_keys rest k v with hk | hk
      · rw [hk]; exact hnotin
      · rw [hk]
        simp only [List.mem_append, List.mem_singleton]
        rintro (hin | hin)
        · exact hnotin hin
        · exact h hin

theorem jsMapSet_count_one {α : Type} (m : JsMap α) (k : String) (v : α)
    (hwf : JsMap.WF m) : ((m.set k v).map Prod.fst).count k = 1 := by
  have hwf' : JsMap.WF (m.set k v) := jsMapSet_WF m k v hwf
  have hmem : k ∈ (m.set k v).map Prod.fst := by
    rcases jsMapSet_keys m k v with hk | hk
    · rw [hk]
      -- the key was already present: get? finds it, so it is a mapped fst
      have hself := jsMapSet_get_self m k v
      unfold JsMap.get? at hself
      rcases hf : List.find? (fun p => p.1 == k) (m.set k v) with _ | p
      · rw [hf] at hself; simp at hself
      · have hp : p.1 = k := by simpa using List.find?_some hf
        have hpmem : p ∈ m.set k v := List.mem_of_find?_eq_some hf
        have hkin : k ∈ (m.set k v).map Prod.fst :=
          List.mem_map.mpr ⟨p, hpmem, hp⟩
        rwa [hk] at hkin
    · rw [hk]; simp
  exact List.count_eq_one_of_mem hwf' hmem

theorem jsMapDel_get_none {α : Type} (m : JsMap α) (k : String)
    (hwf : JsMap.WF m) : (m.del k).get? k = none := by
  induction m with
  | nil => rfl
  | cons p rest ih =>
    have hrest : JsMap.WF rest := (List.nodup_cons.mp hwf).2
    have hnotin : p.1 ∉ rest.map Prod.fst := (List.nodup_cons.mp hwf).1
    by_cases h : p.1 = k
    · simp only [JsMap.del, if_pos h]
      unfold JsMap.get?
      rcases hf : List.find? (fun q => q.1 == k) rest with _ | q
      · simp [hf]
      · have hq : q.1 = k := by simpa using List.find?_some hf
        have hqmem : q ∈ rest := List.mem_of_find?_eq_some hf
        have : k ∈ rest.map Prod.fst := List.mem_map.mpr ⟨q, hqmem, hq⟩
        exact absurd (h ▸ this) hnotin
    · simp only [JsMap.del, if_neg h]
      rw [JsMap.get?, List.find?_cons_of_neg _ (by simpa using h)]
      exact ih hrest

theorem jsMapGet_mem {α : Type} (m : JsMap α) (k : String) (v : α)
    (h : m.get? k = some v) : (k, v) ∈ m := by
  unfold JsMap.get? at h
  rcases hf : List.find? (fun p => p.1 == k) m with _ | p
  · rw [hf] at h; simp at h
  · rw [hf] at h
    simp only [Option.map_some'] at h
    have hp : p.1 = k := by simpa using List.find?_some hf
    have hpmem : p ∈ m := List.mem_of_find?_eq_some hf
    have hpv : p = (k, v) := by
      rcases p with ⟨a, b⟩
      simp only at hp h
      rw [hp, Option.some.inj h]
    exact hpv ▸ hpmem

theorem listGet_lt_isSome {α : Type} :
    ∀ (l : List α) (n : Nat), n < l.length → ∃ a, l.get? n = some a
  | [], _, h => by simp at h
  | a :: _, 0, _ => ⟨a, rfl⟩
  | _ :: t, n + 1, h => listGet_lt_isSome t n (by simpa using h)

theorem promiseAt_eq_some {st : SrvState} {p : Nat} {v : Bool}
    (h : st.promiseAt p = some v) : st.promises.get? p = some (some v) := by
  unfold SrvState.promiseAt at h
  exact Option.join_eq_some.mp h

theorem stepS_keeps_resolved (st : SrvState) (e : SEvent) (p : Nat) (v : Bool)
    (h : st.promiseAt p = some v) : (stepS st e).promiseAt p = some v := by
  have hg := promiseAt_eq_some h
  cases e with
  | create n a t =>
    unfold stepS createApproval SrvState.promiseAt
    simp only
    rw [listGet_append_left _ _ p (listGet_lt_length _ p _ hg), hg]
    rfl
  | decide id ap =>
    unfold stepS approveTool
    cases id with
    | none => exact h
    | some i =>
      by_cases hi : i = ""
      · simp only [if_pos hi]; exact h
      · simp only [if_neg hi]
        rcases hf : st.pending.get? i with _ | entry
        · exact h
        · unfold SrvState.promiseAt
          simp only
          rw [resolveProm_keeps_resolved _ _ _ p v hg]
          rfl
  | timeout r =>
    unfold stepS fireTimeout SrvState.promiseAt
    simp only
    rw [resolveProm_keeps_resolved _ _ _ p v hg]
    rfl

theorem runS_keeps_resolved (es : List SEvent) (st : SrvState) (p : Nat) (v : Bool)
    (h : st.promiseAt p = some v) : (runS st es).promiseAt p = some v := by
  induction es generalizing st with
  | nil => exact h
  | cons e rest ih => exact ih (stepS st e) (stepS_keeps_resolved st e p v h)

theorem resolveProm_true_origin (ps : List (Option Bool)) (ref : Nat) (v : Bool)
    (p : Nat) (h : (resolveProm ps ref v).get? p = some (some true)) :
    ps.get? p = some (some true) ∨ v = true := by
  by_cases hne : ref = p
  · subst hne
    unfold resolveProm at h
    rcases hr : ps.get? ref with _ | c
    · rw [hr] at h
      have h' : ps.get? ref = some (some true) := h
      rw [hr] at h'
      exact Option.noConfusion h'
    · cases c with
      | none =>
        rw [hr] at h
        have h' : (ps.set ref (some v)).get? ref = some (some true) := h
        rw [listGet_set_self ps ref (some v) (listGet_lt_length ps ref none hr)] at h'
        exact Or.inr (Option.some.inj (Option.some.inj h'))
      | some w =>
        rw [hr] at h
        have h' : ps.get? ref = some (some true) := h
        exact Or.inl (hr.symm.trans h')
  · rw [resolveProm_other ps ref v p hne] at h
    exact Or.inl h

theorem isTrue_match_eq (id : Option String) (ap : Option JsVal) :
    (match ap with | some (JsVal.bool true) => true | _ => false) =
      isApproveTrue (.decide id ap) := by
  cases ap with
  | none => rfl
  | some v =>
    cases v with
    | bool b => cases b <;> rfl
    | null => rfl
    | num m e => rfl
    | str s => rfl
    | arr xs => rfl
    | obj fs => rfl

theorem stepS_decide_none (st : SrvState) (ap : Option JsVal) :
    stepS st (.decide none ap) = st := rfl

theorem stepS_decide_empty (st : SrvState) (ap : Option JsVal) :
    stepS st (.decide (some "") ap) = st := by
  simp [stepS, approveTool]

theorem stepS_decide_notFound (st : SrvState) (i : String) (ap : Option JsVal)
    (hi : ¬ i = "") (hf : st.pending.get? i = none) :
    stepS st (.decide (some i) ap) = st := by
  simp only [stepS, approveTool]
  rw [if_neg hi]
  simp only [hf]

theorem stepS_decide_found (st : SrvState) (i : String) (entry : PendingEntry)
    (ap : Option JsVal) (hi : ¬ i = "") (hf : st.pending.get? i = some entry) :
    stepS st (.decide (some i) ap) =
      { pending := st.pending.del i,
        promises := resolveProm st.promises entry.resolveRef
          (isApproveTrue (.decide (some i) ap)),
        timers := st.timers } := by
  simp only [stepS, approveTool]
  rw [if_neg hi]
  simp only [hf]
  rw [isTrue_match_eq]

theorem stepS_true_origin (st : SrvState) (e : SEvent) (p : Nat)
    (h : (stepS st e).promiseAt p = some true) :
    st.promiseAt p = some true ∨ isApproveTrue e = true := by
  cases e with
  | create n a t =>
    left
    have hg : (st.promises ++ [none]).get? p = some (some true) :=
      promiseAt_eq_some h
    have hlt := listGet_lt_length _ p _ hg
    by_cases hp : p < st.promises.length
    · rw [listGet_append_left _ _ p hp] at hg
      unfold SrvState.promiseAt
      rw [hg]
      rfl
    · have hpe : p = st.promises.length := by
        simp only [List.length_append, List.length_singleton] at hlt
        omega
      rw [hpe, listGet_concat_self] at hg
      exact Option.noConfusion (Option.some.inj hg)
  | decide id ap =>
    cases id with
    | none =>
      rw [stepS_decide_none] at h
      exact Or.inl h
    | some i =>
      by_cases hi : i = ""
      · rw [hi, stepS_decide_empty] at h
        exact Or.inl h
      · rcases hf : st.pending.get? i with _ | entry
        · rw [stepS_decide_notFound st i ap hi hf] at h
          exact Or.inl h
        · rw [stepS_decide_found st i entry ap hi hf] at h
          have h' := promiseAt_eq_some h
          rcases resolveProm_true_origin _ _ _ _ h' with hl | hr2
          · exact Or.inl (by unfold SrvState.promiseAt; rw [hl]; rfl)
          · exact Or.inr hr2
  | timeout r =>
    left
    have h' : (resolveProm st.promises r false).get? p = some (some true) :=
      promiseAt_eq_some h
    rcases resolveProm_true_origin _ _ _ _ h' with hl | hr2
    · unfold SrvState.promiseAt
      rw [hl]
      rfl
    · exact Bool.noConfusion hr2

theorem runS_true_origin (es : List SEvent) (st : SrvState) (p : Nat)
    (h : (runS st es).promiseAt p = some true) :
    st.promiseAt p = some true ∨ ∃ e ∈ es, isApproveTrue e = true := by
  induction es generalizing st with
  | nil => exact Or.inl h
  | cons e rest ih =>
    rcases ih (stepS st e) h with h1 | ⟨e', he', ha⟩
    · rcases stepS_true_origin st e p h1 with h2 | h2
      · exact Or.inl h2
      · exact Or.inr ⟨e, List.mem_cons_self e rest, h2⟩
    · exact Or.inr ⟨e', List.mem_cons_of_mem e he', ha⟩

theorem fireTimeout_resolved (st : SrvState) (p : Nat)
    (h : p < st.promises.length) :
    ∃ v, (fireTimeout st p).promiseAt p = some v := by
  rcases listGet_lt_isSome st.promises p h with ⟨c, hc⟩
  cases c with
  | none =>
    refine ⟨false, ?_⟩
    unfold fireTimeout SrvState.promiseAt
    simp only
    rw [resolveProm_resolves st.promises p false hc]
    rfl
  | some w =>
    refine ⟨w, ?_⟩
    unfold fireTimeout SrvState.promiseAt
    simp only
    rw [resolveProm_keeps_resolved st.promises p false p w hc]
    rfl

theorem stepS_length_mono (st : SrvState) (e : SEvent) :
    st.promises.length ≤ (stepS st e).promises.length := by
  cases e with
  | create n a t => simp [stepS, createApproval]
  | decide id ap =>
    cases id with
    | none => rw [stepS_decide_none]
    | some i =>
      by_cases hi : i = ""
      · rw [hi, stepS_decide_empty]
      · rcases hf : st.pending.get? i with _ | entry
        · rw [stepS_decide_notFound st i ap hi hf]
        · rw [stepS_decide_found st i entry ap hi hf]
          simp [resolveProm_length]
  | timeout r => simp [stepS, fireTimeout, resolveProm_length]

theorem runS_length_mono (es : List SEvent) (st : SrvState) :
    st.promises.length ≤ (runS st es).promises.length := by
  induction es generalizing st with
  | nil => exact Nat.le_refl _
  | cons e rest ih => exact Nat.le_trans (stepS_length_mono st e) (ih (stepS st e))

theorem refs_set_mem (m : JsMap PendingEntry)
    (k : String) (v : PendingEntry) (r : Nat)
    (h : r ∈ pendingRefs (m.set k v)) :
    r ∈ pendingRefs m ∨ r = v.resolveRef := by
  induction m with
  | nil =>
    simp [JsMap.set, pendingRefs] at h
    exact Or.inr h
  | cons p rest ih =>
    by_cases hk : p.1 = k
    · simp only [JsMap.set, if_pos hk, pendingRefs, List.map_cons] at h ⊢
      rcases List.mem_cons.mp h with h1 | h1
      · exact Or.inr h1
      · exact Or.inl (List.mem_cons_of_mem _ h1)
    · simp only [JsMap.set, if_neg hk, pendingRefs, List.map_cons] at h ⊢
      rcases List.mem_cons.mp h with h1 | h1
      · exact Or.inl (List.mem_cons.mpr (Or.inl h1))
      · rcases ih h1 with h2 | h2
        · exact Or.inl (List.mem_cons.mpr (Or.inr h2))
        · exact Or.inr h2

theorem refs_del_mem (m : JsMap PendingEntry) (k : String) (r : Nat)
    (h : r ∈ pendingRefs (m.del k)) : r ∈ pendingRefs m := by
  induction m with
  | nil => exact h
  | cons p rest ih =>
    by_cases hk : p.1 = k
    · simp only [JsMap.del, if_pos hk] at h
      exact List.mem_cons_of_mem _ h
    · simp only [JsMap.del, if_neg hk, pendingRefs, List.map_cons] at h ⊢
      rcases List.mem_cons.mp h with h1 | h1
      · exact List.mem_cons.mpr (Or.inl h1)
      · exact List.mem_cons.mpr (Or.inr (ih h1))

theorem get_ref_mem (m : JsMap PendingEntry) (i : String) (entry : PendingEntry)
    (h : m.get? i = some entry) : entry.resolveRef ∈ pendingRefs m := by
  have := jsMapGet_mem m i entry h
  unfold pendingRefs
  exact List.mem_map.mpr ⟨(i, entry), this, rfl⟩

theorem stepS_inv_refs (p : Nat) (st : SrvState) (e : SEvent)
    (h1 : p ∉ pendingRefs st.pending) (h2 : p < st.promises.length) :
    p ∉ pendingRefs (stepS st e).pending ∧ p < (stepS st e).promises.length := by
  refine ⟨?_, Nat.lt_of_lt_of_le h2 (stepS_length_mono st e)⟩
  cases e with
  | create n a t =>
    intro hmem
    rcases refs_set_mem st.pending _ _ p hmem with hm | hm
    · exact h1 hm
    · exact Nat.lt_irrefl p (hm ▸ h2)
  | decide id ap =>
    cases id with
    | none => rw [stepS_decide_none]; exact h1
    | some i =>
      by_cases hi : i = ""
      · rw [hi, stepS_decide_empty]; exact h1
      · rcases hf : st.pending.get? i with _ | entry
        · rw [stepS_decide_notFound st i ap hi hf]; exact h1
        · rw [stepS_decide_found st i entry ap hi hf]
          intro hmem
          exact h1 (refs_del_mem st.pending i p hmem)
  | timeout r => exact h1

theorem stepS_untouched (p : Nat) (st : SrvState) (e : SEvent)
    (h1 : p ∉ pendingRefs st.pending) (h2 : p < st.promises.length)
    (h3 : isTimeoutOf p e = false) :
    (stepS st e).promiseAt p = st.promiseAt p := by
  cases e with
  | create n a t =>
    unfold stepS createApproval SrvState.promiseAt
    simp only
    rw [listGet_append_left _ _ p h2]
  | decide id ap =>
    cases id with
    | none => rw [stepS_decide_none]
    | some i =>
      by_cases hi : i = ""
      · rw [hi, stepS_decide_empty]
      · rcases hf : st.pending.get? i with _ | entry
        · rw [stepS_decide_notFound st i ap hi hf]
        · rw [stepS_decide_found st i entry ap hi hf]
          unfold SrvState.promiseAt
          simp only
          rw [resolveProm_other _ _ _ p
            (fun he => h1 (he ▸ get_ref_mem st.pending i entry hf))]
  | timeout r =>
    unfold stepS fireTimeout SrvState.promiseAt
    simp only
    have hr : r ≠ p := by
      intro he
      rw [he] at h3
      simp [isTimeoutOf] at h3
    rw [resolveProm_other _ _ _ p hr]

theorem runS_append_cons (st : SrvState) (l₁ l₂ : List SEvent) (e : SEvent) :
    runS st (l₁ ++ e :: l₂) = runS (stepS (runS st l₁) e) l₂ := by
  simp [runS, List.foldl_append]

theorem init_promiseAt_none (p : Nat) : SrvState.init.promiseAt p = none := by
  unfold SrvState.init SrvState.promiseAt
  cases p <;> rfl

theorem fireTimeout_not_true (st : SrvState) (p : Nat)
    (h4 : st.promiseAt p ≠ some true) :
    (fireTimeout st p).promiseAt p ≠ some true := by
  intro htrue
  have h' : (resolveProm st.promises p false).get? p = some (some true) :=
    promiseAt_eq_some htrue
  rcases resolveProm_true_origin _ _ _ _ h' with hl | hr
  · exact h4 (by unfold SrvState.promiseAt; rw [hl]; rfl)
  · exact Bool.noConfusion hr

theorem stepS_not_true (p : Nat) (st : SrvState) (e : SEvent)
    (h1 : p ∉ pendingRefs st.pending) (h2 : p < st.promises.length)
    (h4 : st.promiseAt p ≠ some true) :
    (stepS st e).promiseAt p ≠ some true := by
  rcases ht : isTimeoutOf p e with _ | _
  · rw [stepS_untouched p st e h1 h2 ht]
    exact h4
  · cases e with
    | create n a t => simp [isTimeoutOf] at ht
    | decide id ap => simp [isTimeoutOf] at ht
    | timeout r =>
      have hr : r = p := by simpa [isTimeoutOf] using ht
      rw [hr]
      exact fireTimeout_not_true st p h4

theorem runS_untouched (p : Nat) (es : List SEvent) (st : SrvState)
    (h1 : p ∉ pendingRefs st.pending) (h2 : p < st.promises.length)
    (h3 : ∀ e ∈ es, isTimeoutOf p e = false) :
    (runS st es).promiseAt p = st.promiseAt p := by
  induction es generalizing st with
  | nil => rfl
  | cons e rest ih =>
    have hinv := stepS_inv_refs p st e h1 h2
    have hstep := stepS_untouched p st e h1 h2
      (h3 e (List.mem_cons_self e rest))
    have := ih (stepS st e) hinv.1 hinv.2
      (fun e' he' => h3 e' (List.mem_cons_of_mem e he'))
    rw [runS, List.foldl_cons]
    rw [show List.foldl stepS (stepS st e) rest = runS (stepS st e) rest from rfl]
    rw [this, hstep]

theorem runS_not_true (p : Nat) (es : List SEvent) (st : SrvState)
    (h1 : p ∉ pendingRefs st.pending) (h2 : p < st.promises.length)
    (h4 : st.promiseAt p ≠ some true) :
    (runS st es).promiseAt p ≠ some true := by
  induction es generalizing st with
  | nil => exact h4
  | cons e rest ih =>
    have hinv := stepS_inv_refs p st e h1 h2
    exact ih (stepS st e) hinv.1 hinv.2 (stepS_not_true p st e h1 h2 h4)

/-! ## Claim C1 — approval timeout is fail-safe -/

/-- Claim C1: every external-mode approval request schedules its forced
rejection exactly 30000 ms after creation; a request promise is never
resolved `true` without an explicit `approved === true` decision in the
trace (never fail open); and in any trace from server start without an
approving decision, once the request's scheduled timeout has fired the
promise is resolved `false`. -/
theorem claim_C1_timeout_fail_safe :
    (∀ (st : SrvState) (n : String) (a : JsVal) (now : Nat),
      (createApproval st n a now).timers =
        st.timers ++ [(now + 30000, st.promises.length)]) ∧
    (∀ (es : List SEvent) (p : Nat),
      (runS SrvState.init es).promiseAt p = some true →
      ∃ e ∈ es, isApproveTrue e = true) ∧
    (∀ (es₁ es₂ : List SEvent) (p : Nat),
      p < (runS SrvState.init es₁).promises.length →
      (∀ e ∈ es₁, isApproveTrue e = false) →
      (∀ e ∈ es₂, isApproveTrue e = false) →
      (runS SrvState.init (es₁ ++ SEvent.timeout p :: es₂)).promiseAt p =
        some false) := by
  have failOpen : ∀ (es : List SEvent) (p : Nat),
      (runS SrvState.init es).promiseAt p = some true →
      ∃ e ∈ es, isApproveTrue e = true := by
    intro es p h
    rcases runS_true_origin es SrvState.init p h with h1 | h2
    · rw [init_promiseAt_none] at h1
      exact Option.noConfusion h1
    · exact h2
  refine ⟨fun st n a now => rfl, failOpen, ?_⟩
  intro es₁ es₂ p hlen h₁ h₂
  rcases fireTimeout_resolved (runS SrvState.init es₁) p hlen with ⟨v, hv⟩
  have hfin : (runS SrvState.init (es₁ ++ SEvent.timeout p :: es₂)).promiseAt p =
      some v := by
    rw [runS_append_cons]
    exact runS_keeps_resolved es₂ _ p v hv
  cases v with
  | false => exact hfin
  | true =>
    exfalso
    rcases failOpen _ p hfin with ⟨e, he, ha⟩
    rcases List.mem_append.mp he with he1 | he1
    · rw [h₁ e he1] at ha
      exact Bool.noConfusion ha
    · rcases List.mem_cons.mp he1 with he2 | he2
      · rw [he2] at ha
        exact Bool.noConfusion ha
      · rw [h₂ e he2] at ha
        exact Bool.noConfusion ha

/-- Claim C1, witness: a request created at time 5 with no decision at all;
after its timeout fires the promise holds `false`. -/
theorem claim_C1_witness :
    0 < (runS SrvState.init [SEvent.create "calc" JsVal.null 5]).promises.length ∧
    (∀ e ∈ [SEvent.create "calc" JsVal.null 5], isApproveTrue e = false) ∧
    (runS SrvState.init
        ([SEvent.create "calc" JsVal.null 5] ++ SEvent.timeout 0 :: [])).promiseAt 0 =
      some false :=
  ⟨by decide, by decide,
   claim_C1_timeout_fail_safe.2.2 [SEvent.create "calc" JsVal.null 5] [] 0
     (by decide) (by decide) (by decide)⟩

/-! ## Claim C4 — resolution, removal, and late decisions -/

/-- Claim C4, counterexample: a request that resolves by TIMEOUT is not
removed from the pending table — after `create` at time 0 and the timeout
firing, the promise holds `false` yet `pendingApprovals` still contains
`"foo_0"`; moreover, after an EXPLICIT decision a second decision for the
same id is answered with a 404 not-found error, not silently ignored. -/
theorem claim_C4_counterexample :
    (runS SrvState.init [SEvent.create "foo" JsVal.null 0,
        SEvent.timeout 0]).promiseAt 0 = some false ∧
    (runS SrvState.init [SEvent.create "foo" JsVal.null 0,
        SEvent.timeout 0]).pending.get? "foo_0" = some ⟨"foo", JsVal.null, 0⟩ ∧
    (approveTool
        (approveTool (runS SrvState.init [SEvent.create "foo" JsVal.null 0])
          (some "foo_0") (some (JsVal.bool true))).1
        (some "foo_0") (some (JsVal.bool true))).2 = ApiResp.notFound :=
  ⟨rfl, rfl, rfl⟩

/-- Claim C4 (amended): a request resolved by an EXPLICIT decision is
removed from the table in the same step and the endpoint answers `ok`; a
decision for an id absent from the table is answered with a not-found error
and leaves the state unchanged; a promise, once resolved, keeps its value
through every later event (so any late `resolve` is a no-op on the
outcome); but the TIMEOUT path does not remove the table entry — the
pending table is unchanged by a timeout firing. -/
theorem claim_C4_amended :
    (∀ (st : SrvState) (i : String) (entry : PendingEntry) (ap : Option JsVal),
      JsMap.WF st.pending → ¬ i = "" → st.pending.get? i = some entry →
      (approveTool st (some i) ap).2 = ApiResp.ok ∧
      (approveTool st (some i) ap).1.pending.get? i = none) ∧
    (∀ (st : SrvState) (i : String) (ap : Option JsVal),
      ¬ i = "" → st.pending.get? i = none →
      approveTool st (some i) ap = (st, ApiResp.notFound)) ∧
    (∀ (st : SrvState) (e : SEvent) (p : Nat) (v : Bool),
      st.promiseAt p = some v → (stepS st e).promiseAt p = some v) ∧
    (∀ (st : SrvState) (r : Nat), (fireTimeout st r).pending = st.pending) := by
  refine ⟨?_, ?_, stepS_keeps_resolved, fun st r => rfl⟩
  · intro st i entry ap hwf hi hf
    simp only [approveTool]
    rw [if_neg hi]
    simp only [hf]
    exact ⟨trivial, jsMapDel_get_none st.pending i hwf⟩
  · intro st i ap hi hf
    simp only [approveTool]
    rw [if_neg hi]
    simp only [hf]

/-- Claim C4, witness: the amended statement applied to the concrete state
holding the single request `"foo_0"`. -/
theorem claim_C4_witness :
    JsMap.WF (runS SrvState.init [SEvent.create "foo" JsVal.null 0]).pending ∧
    (runS SrvState.init [SEvent.create "foo" JsVal.null 0]).pending.get?
      "foo_0" = some ⟨"foo", JsVal.null, 0⟩ ∧
    (approveTool (runS SrvState.init [SEvent.create "foo" JsVal.null 0])
        (some "foo_0") (some (JsVal.bool false))).2 = ApiResp.ok ∧
    (approveTool (runS SrvState.init [SEvent.create "foo" JsVal.null 0])
        (some "foo_0") (some (JsVal.bool false))).1.pending.get? "foo_0" = none :=
  ⟨by decide, rfl,
   (claim_C4_amended.1 (runS SrvState.init [SEvent.create "foo" JsVal.null 0])
     "foo_0" ⟨"foo", JsVal.null, 0⟩ (some (JsVal.bool false))
     (by decide) (by decide) rfl).1,
   (claim_C4_amended.1 (runS SrvState.init [SEvent.create "foo" JsVal.null 0])
     "foo_0" ⟨"foo", JsVal.null, 0⟩ (some (JsVal.bool false))
     (by decide) (by decide) rfl).2⟩

/-! ## Claim C10 — key collisions in the pending table -/

/-- Claim C10: the pending-approval key is the tool name, an underscore, and
the creation time in milliseconds; two requests for the same tool in the
same millisecond share the key, so the second `set` overwrites the first
request's table entry (one entry, holding the second continuation), and the
first request's promise can then never be resolved by an explicit decision:
it stays unresolved until its own timeout fires and is never `true`. -/
theorem claim_C10_key_collision :
    (∀ (st : SrvState) (n : String) (a : JsVal) (t : Nat),
      (createApproval st n a t).pending =
        st.pending.set (n ++ "_" ++ toString t) ⟨n, a, st.promises.length⟩) ∧
    (∀ (st : SrvState) (n : String) (a a' : JsVal) (t : Nat),
      JsMap.WF st.pending →
      (createApproval (createApproval st n a t) n a' t).pending.get?
          (n ++ "_" ++ toString t) =
        some ⟨n, a', st.promises.length + 1⟩ ∧
      (((createApproval (createApproval st n a t) n a' t).pending).map
          Prod.fst).count (n ++ "_" ++ toString t) = 1) ∧
    (∀ (st : SrvState) (n : String) (a a' : JsVal) (t : Nat) (es : List SEvent),
      (∀ r ∈ pendingRefs st.pending, r < st.promises.length) →
      ((∀ e ∈ es, isTimeoutOf st.promises.length e = false) →
        (runS (createApproval (createApproval st n a t) n a' t) es).promiseAt
          st.promises.length = none) ∧
      (runS (createApproval (createApproval st n a t) n a' t) es).promiseAt
        st.promises.length ≠ some true) := by
  have hpend : ∀ (st : SrvState) (n : String) (a a' : JsVal) (t : Nat),
      (createApproval (createApproval st n a t) n a' t).pending =
        st.pending.set (n ++ "_" ++ toString t)
          ⟨n, a', st.promises.length + 1⟩ := by
    intro st n a a' t
    unfold createApproval
    simp only [jsMapSet_set_same, List.length_append, List.length_singleton]
  refine ⟨fun st n a t => rfl, ?_, ?_⟩
  · intro st n a a' t hwf
    rw [hpend]
    exact ⟨jsMapSet_get_self _ _ _, jsMapSet_count_one _ _ _ hwf⟩
  · intro st n a a' t es hbound
    have h1 : st.promises.length ∉
        pendingRefs (createApproval (createApproval st n a t) n a' t).pending := by
      rw [hpend]
      intro hmem
      rcases refs_set_mem st.pending _ _ _ hmem with hm | hm
      · exact Nat.lt_irrefl _ (hbound _ hm)
      · simp only at hm
        omega
    have h2 : st.promises.length <
        (createApproval (createApproval st n a t) n a' t).promises.length := by
      unfold createApproval
      simp only [List.length_append, List.length_singleton]
      omega
    have h0 : (createApproval (createApproval st n a t) n a' t).promiseAt
        st.promises.length = none := by
      unfold createApproval SrvState.promiseAt
      simp only
      rw [listGet_append_left _ _ _ (by simp)]
      rw [listGet_concat_self]
      rfl
    constructor
    · intro hto
      rw [runS_untouched _ es _ h1 h2 hto]
      exact h0
    · exact runS_not_true _ es _ h1 h2 (by rw [h0]; exact fun hc => Option.noConfusion hc)

/-- Claim C10, witness: two requests for tool `"f"` in millisecond 0 from a
fresh server; after the first request's timeout fires its promise is not
`true` (it was resolved `false` by its own timer, never by a decision). -/
theorem claim_C10_witness :
    (∀ r ∈ pendingRefs SrvState.init.pending, r < SrvState.init.promises.length) ∧
    (runS (createApproval (createApproval SrvState.init "f" JsVal.null 0)
        "f" JsVal.null 0) [SEvent.timeout 0]).promiseAt 0 ≠ some true :=
  ⟨by decide,
   (claim_C10_key_collision.2.2 SrvState.init "f" JsVal.null JsVal.null 0
     [SEvent.timeout 0] (by decide)).2⟩
